import Mathlib

/-!
Verification development for the `huawei-modem` crate.

The definitions below are shallow embeddings of functions from the crate's
sources (`src/pdu.rs`, `src/gsm_encoding/mod.rs`, `src/gsm_encoding/udh.rs`,
`src/future.rs`).  Machine integers (`u8`, `usize`) are modelled as `Nat`,
with `% 256` inserted exactly where Rust's `u8` arithmetic wraps (shifts of
`u8` discard bits above bit 7; additions and masks in the sources never
overflow `usize`).  Rust slices become `List Nat`; indexing `b[i]` becomes
`b[i]?` and slicing `b[i..j]` becomes `(b.drop i).take (j - i)`.  Fallible
Rust functions returning `HuaweiResult` become `Except String`; a Rust panic
(an unchecked index) is modelled by a dedicated result constructor.
-/

set_option maxHeartbeats 1000000
set_option maxRecDepth 100000

namespace HuaweiModem

/-! ## Bit-arithmetic helpers -/

/-- Disjoint bitwise or is addition: if `a` fits in the low `k` bits, then
`a ||| (b <<< k)` equals `a + b * 2 ^ k`. -/
theorem lor_shiftLeft_eq_add (a b k : Nat) (h : a < 2 ^ k) :
    a ||| (b <<< k) = a + b * 2 ^ k := by
  symm
  apply Nat.eq_of_testBit_eq
  intro i
  rw [Nat.testBit_lor, Nat.testBit_shiftLeft]
  rcases Nat.lt_or_ge i k with hik | hik
  · have hge : (decide (i ≥ k) && b.testBit (i - k)) = false := by
      simp [Nat.not_le.mpr hik]
    rw [hge, Bool.or_false]
    have h2i : (0:Nat) < 2 ^ i := Nat.pos_pow_of_pos _ (by omega)
    have hsplit : b * 2 ^ k = (b * 2 ^ (k - i - 1) * 2) * 2 ^ i := by
      rw [Nat.mul_assoc, Nat.mul_assoc, ← Nat.pow_succ']
      rw [← Nat.pow_add]
      congr 2
      omega
    rw [Nat.testBit_to_div_mod, Nat.testBit_to_div_mod, hsplit,
      Nat.add_mul_div_right _ _ h2i, Nat.add_mul_mod_self_right]
  · have h2k : (0:Nat) < 2 ^ k := Nat.pos_pow_of_pos _ (by omega)
    have hq : (a + b * 2 ^ k) / 2 ^ i = b / 2 ^ (i - k) := by
      have : (2:Nat) ^ i = 2 ^ k * 2 ^ (i - k) := by
        rw [← Nat.pow_add]; congr 1; omega
      rw [this, ← Nat.div_div_eq_div_mul, Nat.add_mul_div_right _ _ h2k,
        Nat.div_eq_of_lt h, Nat.zero_add]
    rw [Nat.testBit_to_div_mod, Nat.testBit_to_div_mod, hq]
    have ha : a / 2 ^ i = 0 :=
      Nat.div_eq_of_lt (Nat.lt_of_lt_of_le h (Nat.pow_le_pow_right (by omega) hik))
    simp [ha, hik, Nat.testBit_to_div_mod]

/-- Low `k` bits or-ed with the remaining high bits reassemble the number. -/
theorem lor_mod_shiftRight (d k : Nat) :
    d % 2 ^ k ||| ((d >>> k) <<< k) = d := by
  rw [lor_shiftLeft_eq_add _ _ _ (Nat.mod_lt _ (Nat.pos_pow_of_pos _ (by omega))),
    Nat.shiftRight_eq_div_pow]
  rw [Nat.add_comm, Nat.mul_comm]
  exact Nat.div_add_mod d (2 ^ k)

/-- A `u8` left shift followed by the matching right shift keeps the low bits:
`((d <<< p) % 256) >>> p = d % 2 ^ (8 - p)` for `p ≤ 8`. -/
theorem shiftLeft_mod_shiftRight (d p : Nat) (hp : p ≤ 8) :
    ((d <<< p) % 256) >>> p = d % 2 ^ (8 - p) := by
  rw [Nat.shiftLeft_eq, Nat.shiftRight_eq_div_pow]
  have h256 : (256:Nat) = 2 ^ (8 - p) * 2 ^ p := by
    rw [← Nat.pow_add]
    have he : 8 - p + p = 8 := by omega
    rw [he]
  rw [h256, Nat.mul_mod_mul_right]
  exact Nat.mul_div_cancel _ (Nat.pos_pow_of_pos _ (by omega))

/-! ## GSM 03.38 7-bit septet packing (`src/gsm_encoding/mod.rs`) -/

/-- Main loop of `encode_sms_7bit` (mod.rs lines 317-332).  `cc` is the Rust
`chars_cur` variable: the number of bits in the current octet that come from
the current septet.  `rest.headD 0` models `orig.get(i+1)` defaulting to 0. -/
def encLoop : List Nat → Nat → List Nat
  | [], _ => []
  | d :: rest, cc =>
    if cc = 0 then encLoop rest 7
    else (((d &&& 127) >>> (7 - cc)) ||| ((rest.headD 0 <<< cc) % 256)) :: encLoop rest (cc - 1)

/-- `encode_sms_7bit` (mod.rs lines 307-334).  When `padding > 0` and the
input is non-empty, the first septet is pushed shifted by `padding` (a `u8`
shift, hence `% 256`) and the loop starts with `chars_cur = padding - 1`. -/
def encode_sms_7bit (orig : List Nat) (padding : Nat) : List Nat :=
  if 0 < padding ∧ orig ≠ [] then
    ((orig.headD 0 <<< padding) % 256) :: encLoop orig (padding - 1)
  else
    encLoop orig 7

/-- Main loop of `decode_sms_7bit` (mod.rs lines 287-301), written so that the
growing vector `ret` is returned from the point of its last element onward:
`last` is the element `ret[i]` currently being or-ed into, and `cnt` is the
number of elements of `ret` before it (so `ret.len() = cnt + 1`).  The final
iteration pushes `next` only when `j+1 < orig.len() || ret.len() < len`. -/
def decLoop : List Nat → Nat → Nat → Nat → Nat → List Nat
  | [], _, last, _, _ => [last]
  | d :: rest, cc, last, cnt, len =>
    let cc2 := if cc = 0 then 7 else cc
    let last2 := if cc = 0 then 0 else last
    let cnt2 := if cc = 0 then cnt + 1 else cnt
    let next := d >>> cc2
    let cur := (((d <<< (8 - cc2)) % 256) >>> (8 - cc2)) <<< (7 - cc2)
    let tl :=
      match rest with
      | [] => if cnt2 + 1 < len then [last2 ||| cur, next] else [last2 ||| cur]
      | _ :: _ => (last2 ||| cur) :: decLoop rest (cc2 - 1) next (cnt2 + 1) len
    if cc = 0 then last :: tl else tl

/-- `decode_sms_7bit` (mod.rs lines 279-306).  `ret` starts as `vec![0]`;
when `padding > 0` the leading accumulator octet is removed at the end
(`ret.remove(0)`). -/
def decode_sms_7bit (orig : List Nat) (padding len : Nat) : List Nat :=
  let cc0 := if 0 < padding ∧ orig ≠ [] then padding else 7
  let ret := decLoop orig cc0 0 0 len
  if 0 < padding ∧ ret ≠ [] then ret.tail else ret

example : encode_sms_7bit [1, 2] 2 = [4, 4] := by decide
example : decode_sms_7bit [4, 4] 2 2 = [1] := by decide
example : decode_sms_7bit (encode_sms_7bit [104, 101, 108, 108, 111] 0) 0 5 =
    [104, 101, 108, 108, 111] := by decide
example : encode_sms_7bit [104, 101, 108, 108, 111] 0 = [0xE8, 0x32, 0x9B, 0xFD, 0x06] := by
  decide

/-! ### Equation lemmas for the septet codec loops -/

theorem encLoop_nil (cc : Nat) : encLoop [] cc = [] := rfl

theorem encLoop_cons (d : Nat) (rest : List Nat) (cc : Nat) (h : cc ≠ 0) :
    encLoop (d :: rest) cc =
      (((d &&& 127) >>> (7 - cc)) ||| ((rest.headD 0 <<< cc) % 256)) :: encLoop rest (cc - 1) := by
  simp [encLoop, h]

theorem encLoop_cons_ne_nil (d : Nat) (rest : List Nat) (cc : Nat) (h : cc ≠ 0) :
    encLoop (d :: rest) cc ≠ [] := by
  simp [encLoop, h]

theorem decLoop_singleton (d cc last cnt len : Nat) (h : cc ≠ 0) :
    decLoop [d] cc last cnt len =
      if cnt + 1 < len then
        [last ||| ((((d <<< (8 - cc)) % 256) >>> (8 - cc)) <<< (7 - cc)), d >>> cc]
      else
        [last ||| ((((d <<< (8 - cc)) % 256) >>> (8 - cc)) <<< (7 - cc))] := by
  simp [decLoop, h]

theorem decLoop_cons_of_ne_nil (d : Nat) (X : List Nat) (cc last cnt len : Nat)
    (hX : X ≠ []) (h : cc ≠ 0) :
    decLoop (d :: X) cc last cnt len =
      (last ||| ((((d <<< (8 - cc)) % 256) >>> (8 - cc)) <<< (7 - cc)))
        :: decLoop X (cc - 1) (d >>> cc) (cnt + 1) len := by
  cases X with
  | nil => exact absurd rfl hX
  | cons y ys => simp [decLoop, h]

theorem decLoop_zero (X : List Nat) (last cnt len : Nat) (hX : X ≠ []) :
    decLoop X 0 last cnt len = last :: decLoop X 7 0 (cnt + 1) len := by
  cases X with
  | nil => exact absurd rfl hX
  | cons y ys => simp [decLoop]

/-! ### Per-octet bit facts -/

/-- Masking with `0b01111111` is the identity below 128. -/
theorem land127 : ∀ d < 128, d &&& 127 = d := by decide

/-- A right shift of a bounded number is bounded. -/
theorem shiftRight_lt (x a b : Nat) (h : x < 2 ^ (a + b)) : x >>> a < 2 ^ b := by
  rw [Nat.shiftRight_eq_div_pow]
  rw [Nat.div_lt_iff_lt_mul (Nat.pos_pow_of_pos _ (by omega))]
  rw [← Nat.pow_add]
  rw [Nat.add_comm b a]
  exact h

/-- Bitwise or with zero. -/
theorem nat_lor_zero (x : Nat) : x ||| 0 = x := by
  apply Nat.eq_of_testBit_eq
  intro i
  simp [Nat.testBit_lor]

/-- A `u8` left shift keeps only the low `8 - cc` bits of the shifted value. -/
theorem u8_shiftLeft (r cc : Nat) (h : cc ≤ 8) :
    (r <<< cc) % 256 = (r % 2 ^ (8 - cc)) <<< cc := by
  rw [Nat.shiftLeft_eq, Nat.shiftLeft_eq]
  have h256 : (256:Nat) = 2 ^ (8 - cc) * 2 ^ cc := by
    rw [← Nat.pow_add]
    have he : 8 - cc + cc = 8 := by omega
    rw [he]
  rw [h256, Nat.mul_mod_mul_right]

/-- The `next` value extracted by the decoder from the octet the encoder
built from septet `d` (high part) and following septet `r` (low part). -/
theorem octet_next (d r cc : Nat) (hd : d < 128) (h1 : 1 ≤ cc) (h7 : cc ≤ 7) :
    (((d &&& 127) >>> (7 - cc)) ||| ((r <<< cc) % 256)) >>> cc = r % 2 ^ (8 - cc) := by
  rw [land127 d hd, u8_shiftLeft r cc (by omega)]
  have hx : d >>> (7 - cc) < 2 ^ cc := by
    apply shiftRight_lt
    have he : 7 - cc + cc = 7 := by omega
    rw [he]
    exact hd
  rw [lor_shiftLeft_eq_add _ _ _ hx, Nat.shiftRight_eq_div_pow,
    Nat.add_mul_div_right _ _ (Nat.pos_pow_of_pos _ (by omega)),
    Nat.div_eq_of_lt hx, Nat.zero_add]

/-- The `cur` value extracted by the decoder from that same octet is the high
part of septet `d`, repositioned. -/
theorem octet_cur (d r cc : Nat) (hd : d < 128) (h1 : 1 ≤ cc) (h7 : cc ≤ 7) :
    ((((((d &&& 127) >>> (7 - cc)) ||| ((r <<< cc) % 256)) <<< (8 - cc)) % 256) >>> (8 - cc))
        <<< (7 - cc)
      = (d >>> (7 - cc)) <<< (7 - cc) := by
  rw [land127 d hd, u8_shiftLeft r cc (by omega)]
  have hx : d >>> (7 - cc) < 2 ^ cc := by
    apply shiftRight_lt
    have he : 7 - cc + cc = 7 := by omega
    rw [he]
    exact hd
  rw [lor_shiftLeft_eq_add _ _ _ hx, shiftLeft_mod_shiftRight _ _ (by omega)]
  have he : 8 - (8 - cc) = cc := by omega
  rw [he, Nat.add_mul_mod_self_right, Nat.mod_eq_of_lt hx]

/-! ### The decode-of-encode induction -/

/-- Core induction for the septet packing round trip: decoding the octets
the encoder produces from a non-empty septet list `d :: rest`, starting in
the matching intermediate state, yields `d :: rest` itself except for an
end-of-stream artefact governed by the `ret.len() < len` gate: when the
stream ends exactly on an octet boundary the final septet survives only if
`len` exceeds the count so far, and otherwise a spurious zero septet is
appended when `len` is large enough. -/
theorem decLoop_encLoop_base (d cc cnt len : Nat)
    (hd : d < 128) (h1 : 1 ≤ cc) (h7 : cc ≤ 7) :
    decLoop (encLoop [d] cc) cc (d % 2 ^ (7 - cc)) cnt len =
      if (cc + 7 * ([] : List Nat).length) % 8 = 0 then
        (if cnt + ([] : List Nat).length < len then [d] else ([d] : List Nat).dropLast)
      else
        (if cnt + ([] : List Nat).length + 1 < len then [d] ++ [0] else [d]) := by
  have hcc0 : cc ≠ 0 := by omega
  rw [encLoop_cons _ _ _ hcc0, encLoop_nil]
  rw [decLoop_singleton _ _ _ _ _ hcc0]
  simp only [List.headD_nil]
  rw [octet_cur d 0 cc hd h1 h7, octet_next d 0 cc hd h1 h7,
    lor_mod_shiftRight, Nat.zero_mod]
  have hne : (cc + 7 * ([] : List Nat).length) % 8 ≠ 0 := by
    simp only [List.length_nil, Nat.mul_zero, Nat.add_zero]
    omega
  rw [if_neg hne]
  simp only [List.length_nil, Nat.add_zero]
  by_cases hc : cnt + 1 < len
  · rw [if_pos hc, if_pos hc]
    rfl
  · rw [if_neg hc, if_neg hc]

theorem decLoop_encLoop_aux : ∀ (n : Nat) (rest : List Nat) (d cc cnt len : Nat),
    rest.length ≤ n → d < 128 → (∀ x ∈ rest, x < 128) → 1 ≤ cc → cc ≤ 7 →
    decLoop (encLoop (d :: rest) cc) cc (d % 2 ^ (7 - cc)) cnt len =
      if (cc + 7 * rest.length) % 8 = 0 then
        (if cnt + rest.length < len then d :: rest else (d :: rest).dropLast)
      else
        (if cnt + rest.length + 1 < len then (d :: rest) ++ [0] else d :: rest) := by
  intro n
  induction n with
  | zero =>
    intro rest d cc cnt len hn hd hrest h1 h7
    have hrnil : rest = [] := List.length_eq_zero.mp (by omega)
    subst hrnil
    exact decLoop_encLoop_base d cc cnt len hd h1 h7
  | succ n ih =>
    intro rest d cc cnt len hn hd hrest h1 h7
    cases rest with
    | nil =>
      exact decLoop_encLoop_base d cc cnt len hd h1 h7
    | cons r rs =>
      have hr : r < 128 := hrest r (by simp)
      have hrs : ∀ x ∈ rs, x < 128 := fun x hx => hrest x (by simp [hx])
      have hcc0 : cc ≠ 0 := by omega
      rw [encLoop_cons _ _ _ hcc0]
      simp only [List.headD_cons]
      rcases Nat.lt_or_ge cc 2 with hcc1 | hcc2
      · -- cc = 1 : the octet finishes septet d and contains all of r
        have hcc : cc = 1 := by omega
        subst hcc
        have henc : encLoop (r :: rs) (1 - 1) = encLoop rs 7 := by
          simp [encLoop]
        rw [henc]
        cases rs with
        | nil =>
          rw [encLoop_nil, decLoop_singleton _ _ _ _ _ (by omega)]
          rw [octet_cur d r 1 hd (by omega) (by omega),
            octet_next d r 1 hd (by omega) (by omega), lor_mod_shiftRight]
          have hrmod : r % 2 ^ (8 - 1) = r := Nat.mod_eq_of_lt (by omega)
          rw [hrmod]
          have hz : (1 + 7 * ([r] : List Nat).length) % 8 = 0 := by simp
          rw [if_pos hz]
          simp only [List.length_singleton]
          by_cases hc : cnt + 1 < len
          · rw [if_pos hc, if_pos hc]
          · rw [if_neg hc, if_neg hc]
            rfl
        | cons d2 rs2 =>
          have hd2 : d2 < 128 := hrs d2 (by simp)
          have hrs2 : ∀ x ∈ rs2, x < 128 := fun x hx => hrs x (by simp [hx])
          have hX : encLoop (d2 :: rs2) 7 ≠ [] := encLoop_cons_ne_nil _ _ _ (by omega)
          rw [decLoop_cons_of_ne_nil _ _ _ _ _ _ hX (by omega)]
          rw [octet_cur d r 1 hd (by omega) (by omega),
            octet_next d r 1 hd (by omega) (by omega), lor_mod_shiftRight]
          have hrmod : r % 2 ^ (8 - 1) = r := Nat.mod_eq_of_lt (by omega)
          rw [hrmod]
          have h10 : (1 : Nat) - 1 = 0 := rfl
          rw [h10, decLoop_zero _ _ _ _ hX]
          have ihx := ih rs2 d2 7 (cnt + 2) len (by simp at hn; omega) hd2 hrs2
            (by omega) (by omega)
          rw [show (7 : Nat) - 7 = 0 from rfl, pow_zero, Nat.mod_one] at ihx
          rw [ihx]
          simp only [List.length_cons]
          by_cases hm : (7 + 7 * rs2.length) % 8 = 0
          · rw [if_pos hm, if_pos (by omega : (1 + 7 * (rs2.length + 1 + 1)) % 8 = 0)]
            by_cases hc : cnt + 2 + rs2.length < len
            · rw [if_pos hc, if_pos (by omega : cnt + (rs2.length + 1 + 1) < len)]
            · rw [if_neg hc, if_neg (by omega : ¬ cnt + (rs2.length + 1 + 1) < len)]
              rfl
          · rw [if_neg hm, if_neg (by omega : ¬ (1 + 7 * (rs2.length + 1 + 1)) % 8 = 0)]
            by_cases hc : cnt + 2 + rs2.length + 1 < len
            · rw [if_pos hc, if_pos (by omega : cnt + (rs2.length + 1 + 1) + 1 < len)]
              rfl
            · rw [if_neg hc, if_neg (by omega : ¬ cnt + (rs2.length + 1 + 1) + 1 < len)]
      · -- 2 ≤ cc : the octet takes the top of d and the bottom of r
        have hX : encLoop (r :: rs) (cc - 1) ≠ [] := encLoop_cons_ne_nil _ _ _ (by omega)
        rw [decLoop_cons_of_ne_nil _ _ _ _ _ _ hX hcc0]
        rw [octet_cur d r cc hd h1 h7, octet_next d r cc hd h1 h7, lor_mod_shiftRight]
        have hrmod : r % 2 ^ (8 - cc) = r % 2 ^ (7 - (cc - 1)) := by
          have he : 8 - cc = 7 - (cc - 1) := by omega
          rw [he]
        rw [hrmod]
        have ihx := ih rs r (cc - 1) (cnt + 1) len (by simp at hn; omega) hr hrs
          (by omega) (by omega)
        rw [ihx]
        simp only [List.length_cons]
        by_cases hm : (cc - 1 + 7 * rs.length) % 8 = 0
        · rw [if_pos hm, if_pos (by omega : (cc + 7 * (rs.length + 1)) % 8 = 0)]
          by_cases hc : cnt + 1 + rs.length < len
          · rw [if_pos hc, if_pos (by omega : cnt + (rs.length + 1) < len)]
          · rw [if_neg hc, if_neg (by omega : ¬ cnt + (rs.length + 1) < len)]
            rfl
        · rw [if_neg hm, if_neg (by omega : ¬ (cc + 7 * (rs.length + 1)) % 8 = 0)]
          by_cases hc : cnt + 1 + rs.length + 1 < len
          · rw [if_pos hc, if_pos (by omega : cnt + (rs.length + 1) + 1 < len)]
            rfl
          · rw [if_neg hc, if_neg (by omega : ¬ cnt + (rs.length + 1) + 1 < len)]

/-- Restatement of `decLoop_encLoop_aux` without the fuel parameter. -/
theorem decLoop_encLoop (rest : List Nat) (d cc cnt len : Nat)
    (hd : d < 128) (hrest : ∀ x ∈ rest, x < 128) (h1 : 1 ≤ cc) (h7 : cc ≤ 7) :
    decLoop (encLoop (d :: rest) cc) cc (d % 2 ^ (7 - cc)) cnt len =
      if (cc + 7 * rest.length) % 8 = 0 then
        (if cnt + rest.length < len then d :: rest else (d :: rest).dropLast)
      else
        (if cnt + rest.length + 1 < len then (d :: rest) ++ [0] else d :: rest) :=
  decLoop_encLoop_aux rest.length rest d cc cnt len Nat.le.refl hd hrest h1 h7

/-- The p-th power of two divides 256 for p at most 8. -/
theorem two_pow_dvd_256 (p : Nat) (hp : p ≤ 8) : (2 : Nat) ^ p ∣ 256 := by
  refine ⟨2 ^ (8 - p), ?_⟩
  rw [← Nat.pow_add]
  have he : p + (8 - p) = 8 := by omega
  rw [he]

/-- The `cur` bits the decoder reads out of the initial padding octet
`(d << p) % 256` are all zero. -/
theorem padding_octet_cur (d p : Nat) (h1 : 1 ≤ p) (h7 : p ≤ 7) :
    ((((((d <<< p) % 256) <<< (8 - p)) % 256) >>> (8 - p)) <<< (7 - p)) = 0 := by
  rw [shiftLeft_mod_shiftRight _ _ (by omega)]
  have he : 8 - (8 - p) = p := by omega
  rw [he, Nat.mod_mod_of_dvd _ (two_pow_dvd_256 p (by omega)), Nat.shiftLeft_eq d p,
    Nat.mul_mod_left, Nat.zero_shiftLeft]

/-- The `next` bits the decoder reads out of the initial padding octet are
the low `8 - p` bits of the first septet. -/
theorem padding_octet_next (d p : Nat) (h7 : p ≤ 7) :
    ((d <<< p) % 256) >>> p = d % 2 ^ (8 - p) :=
  shiftLeft_mod_shiftRight d p (by omega)

/-- Unfolding of `decode_sms_7bit` with positive padding, given the value of
the inner loop. -/
theorem decode_sms_7bit_of_decLoop (orig : List Nat) (p len z : Nat) (S : List Nat)
    (hp : 0 < p) (ho : orig ≠ []) (h : decLoop orig p 0 0 len = z :: S) :
    decode_sms_7bit orig p len = S := by
  simp [decode_sms_7bit, hp, ho, h]

/-- Amended septet-packing round trip (claim C2): `decode ∘ encode` is the
identity on non-empty septet lists whenever the total bit count
`p + 7 * N` does not land exactly on an octet boundary (or `p = 0`). -/
theorem decode_encode_sms_7bit (S : List Nat) (p : Nat)
    (hS : ∀ x ∈ S, x < 128) (hp : p ≤ 6) (hne : S ≠ [])
    (hali : p = 0 ∨ (p + 7 * S.length) % 8 ≠ 0) :
    decode_sms_7bit (encode_sms_7bit S p) p S.length = S := by
  cases S with
  | nil => exact absurd rfl hne
  | cons d rest =>
    have hd : d < 128 := hS d (by simp)
    have hrest : ∀ x ∈ rest, x < 128 := fun x hx => hS x (by simp [hx])
    rcases Nat.eq_zero_or_pos p with hp0 | hppos
    · subst hp0
      have henc : encode_sms_7bit (d :: rest) 0 = encLoop (d :: rest) 7 := by
        simp [encode_sms_7bit]
      have hdec : decode_sms_7bit (encLoop (d :: rest) 7) 0 (d :: rest).length
          = decLoop (encLoop (d :: rest) 7) 7 0 0 (d :: rest).length := by
        simp [decode_sms_7bit]
      have hmain := decLoop_encLoop rest d 7 0 (d :: rest).length hd hrest
        (by omega) (by omega)
      rw [show (7 : Nat) - 7 = 0 from rfl, pow_zero, Nat.mod_one] at hmain
      rw [henc, hdec, hmain]
      simp only [List.length_cons]
      by_cases hm : (7 + 7 * rest.length) % 8 = 0
      · rw [if_pos hm, if_pos (by omega : 0 + rest.length < rest.length + 1)]
      · rw [if_neg hm, if_neg (by omega : ¬ 0 + rest.length + 1 < rest.length + 1)]
    · have henc : encode_sms_7bit (d :: rest) p
          = ((d <<< p) % 256) :: encLoop (d :: rest) (p - 1) := by
        simp [encode_sms_7bit, hppos]
      rw [henc]
      rcases Nat.lt_or_ge p 2 with hp1 | hp2
      · -- p = 1
        have hp1e : p = 1 := by omega
        subst hp1e
        cases rest with
        | nil =>
          exfalso
          rcases hali with h | h
          · omega
          · simp only [List.length_singleton] at h
            omega
        | cons r rs =>
          have hr : r < 128 := hrest r (by simp)
          have hrs : ∀ x ∈ rs, x < 128 := fun x hx => hrest x (by simp [hx])
          have hX0 : encLoop (d :: r :: rs) (1 - 1) = encLoop (r :: rs) 7 := by
            simp [encLoop]
          rw [hX0]
          have hX : encLoop (r :: rs) 7 ≠ [] := encLoop_cons_ne_nil _ _ _ (by omega)
          have hstep : decLoop (((d <<< 1) % 256) :: encLoop (r :: rs) 7) 1 0 0
              (d :: r :: rs).length
              = 0 :: decLoop (encLoop (r :: rs) 7) 0 (d % 2 ^ 7) 1 (d :: r :: rs).length := by
            rw [decLoop_cons_of_ne_nil _ _ _ _ _ _ hX (by omega)]
            rw [padding_octet_cur d 1 (by omega) (by omega),
              padding_octet_next d 1 (by omega), nat_lor_zero]
          have hmod : d % 2 ^ 7 = d := Nat.mod_eq_of_lt hd
          have hmain := decLoop_encLoop rs r 7 2 (d :: r :: rs).length hr hrs
            (by omega) (by omega)
          rw [show (7 : Nat) - 7 = 0 from rfl, pow_zero, Nat.mod_one] at hmain
          have hali2 : ¬ (7 + 7 * rs.length) % 8 = 0 := by
            rcases hali with h | h
            · omega
            · simp only [List.length_cons] at h
              omega
          have hret : decLoop (((d <<< 1) % 256) :: encLoop (r :: rs) 7) 1 0 0
              (d :: r :: rs).length = 0 :: d :: r :: rs := by
            rw [hstep, hmod, decLoop_zero _ _ _ _ hX, hmain]
            rw [if_neg hali2]
            simp only [List.length_cons]
            rw [if_neg (by omega : ¬ 2 + rs.length + 1 < rs.length + 1 + 1)]
          exact decode_sms_7bit_of_decLoop _ _ _ _ _ (by omega) (by simp) hret
      · -- 2 ≤ p
        have hX : encLoop (d :: rest) (p - 1) ≠ [] := encLoop_cons_ne_nil _ _ _ (by omega)
        have hstep : decLoop (((d <<< p) % 256) :: encLoop (d :: rest) (p - 1)) p 0 0
            (d :: rest).length
            = 0 :: decLoop (encLoop (d :: rest) (p - 1)) (p - 1) (d % 2 ^ (8 - p)) 1
                (d :: rest).length := by
          rw [decLoop_cons_of_ne_nil _ _ _ _ _ _ hX (by omega)]
          rw [padding_octet_cur d p (by omega) (by omega),
            padding_octet_next d p (by omega), nat_lor_zero]
        have hmod : d % 2 ^ (8 - p) = d % 2 ^ (7 - (p - 1)) := by
          have he : 8 - p = 7 - (p - 1) := by omega
          rw [he]
        have hmain := decLoop_encLoop rest d (p - 1) 1 (d :: rest).length hd hrest
          (by omega) (by omega)
        have hali2 : ¬ (p - 1 + 7 * rest.length) % 8 = 0 := by
          rcases hali with h | h
          · omega
          · simp only [List.length_cons] at h
            omega
        have hret : decLoop (((d <<< p) % 256) :: encLoop (d :: rest) (p - 1)) p 0 0
            (d :: rest).length = 0 :: d :: rest := by
          rw [hstep, hmod, hmain, if_neg hali2]
          simp only [List.length_cons]
          rw [if_neg (by omega : ¬ 1 + rest.length + 1 < rest.length + 1)]
        exact decode_sms_7bit_of_decLoop _ _ _ _ _ (by omega) (by simp) hret

/-! ### Length of the packed octet stream -/

theorem encLoop_length_aux : ∀ (n : Nat) (rest : List Nat) (d cc : Nat),
    rest.length ≤ n → 1 ≤ cc → cc ≤ 7 →
    (encLoop (d :: rest) cc).length = (cc + 7 * rest.length + 7) / 8 := by
  intro n
  induction n with
  | zero =>
    intro rest d cc hn h1 h7
    have hrnil : rest = [] := List.length_eq_zero.mp (by omega)
    subst hrnil
    rw [encLoop_cons _ _ _ (by omega), encLoop_nil]
    simp only [List.length_singleton, List.length_nil]
    omega
  | succ n ih =>
    intro rest d cc hn h1 h7
    cases rest with
    | nil =>
      rw [encLoop_cons _ _ _ (by omega), encLoop_nil]
      simp only [List.length_singleton, List.length_nil]
      omega
    | cons r rs =>
      rw [encLoop_cons _ _ _ (by omega)]
      rcases Nat.lt_or_ge cc 2 with hcc1 | hcc2
      · have hcc : cc = 1 := by omega
        subst hcc
        have henc : encLoop (r :: rs) (1 - 1) = encLoop rs 7 := by
          simp [encLoop]
        rw [henc]
        cases rs with
        | nil =>
          rw [encLoop_nil]
          simp
        | cons d2 rs2 =>
          have := ih rs2 d2 7 (by simp at hn; omega) (by omega) (by omega)
          simp only [List.length_cons] at *
          omega
      · have := ih rs r (cc - 1) (by simp at hn; omega) (by omega) (by omega)
        simp only [List.length_cons] at *
        omega

/-- Amended output-length law (claim C9): for a non-empty septet list (or
zero padding) the packed stream has `⌈(p + 7N) / 8⌉` octets. -/
theorem encode_sms_7bit_length (S : List Nat) (p : Nat)
    (hp : p ≤ 6) (h : S ≠ [] ∨ p = 0) :
    (encode_sms_7bit S p).length = (p + 7 * S.length + 7) / 8 := by
  cases S with
  | nil =>
    have hp0 : p = 0 := by
      rcases h with h | h
      · exact absurd rfl h
      · exact h
    subst hp0
    simp [encode_sms_7bit, encLoop_nil]
  | cons d rest =>
    rcases Nat.eq_zero_or_pos p with hp0 | hppos
    · subst hp0
      have henc : encode_sms_7bit (d :: rest) 0 = encLoop (d :: rest) 7 := by
        simp [encode_sms_7bit]
      rw [henc, encLoop_length_aux rest.length rest d 7 Nat.le.refl (by omega) (by omega)]
      simp only [List.length_cons]
      omega
    · have henc : encode_sms_7bit (d :: rest) p
          = ((d <<< p) % 256) :: encLoop (d :: rest) (p - 1) := by
        simp [encode_sms_7bit, hppos]
      rw [henc]
      rcases Nat.lt_or_ge p 2 with hp1 | hp2
      · have hp1e : p = 1 := by omega
        subst hp1e
        have hX0 : encLoop (d :: rest) (1 - 1) = encLoop rest 7 := by
          simp [encLoop]
        rw [hX0]
        cases rest with
        | nil =>
          rw [encLoop_nil]
          simp
        | cons r rs =>
          rw [List.length_cons,
            encLoop_length_aux rs.length rs r 7 Nat.le.refl (by omega) (by omega)]
          simp only [List.length_cons]
          omega
      · rw [List.length_cons,
          encLoop_length_aux rest.length rest d (p - 1) Nat.le.refl (by omega) (by omega)]
        simp only [List.length_cons]
        omega

/-! ## PDU data model (`src/pdu.rs`) -/

/-- `TypeOfNumber` (pdu.rs lines 66-74). -/
inductive TypeOfNumber
  | Unknown
  | International
  | National
  | Special
  | Gsm
  | Short
  | Reserved
deriving DecidableEq

/-- Discriminant values of `TypeOfNumber` (`#[repr(u8)]`). -/
def TypeOfNumber.toU8 : TypeOfNumber → Nat
  | .Unknown => 0b0000000
  | .International => 0b0010000
  | .National => 0b0100000
  | .Special => 0b0110000
  | .Gsm => 0b1010000
  | .Short => 0b1100000
  | .Reserved => 0b1110000

/-- `TypeOfNumber::from_u8` as derived by `FromPrimitive`. -/
def TypeOfNumber.fromU8 (n : Nat) : Option TypeOfNumber :=
  if n = 0b0000000 then some .Unknown
  else if n = 0b0010000 then some .International
  else if n = 0b0100000 then some .National
  else if n = 0b0110000 then some .Special
  else if n = 0b1010000 then some .Gsm
  else if n = 0b1100000 then some .Short
  else if n = 0b1110000 then some .Reserved
  else none

/-- `NumberingPlanIdentification` (pdu.rs lines 77-85). -/
inductive NumberingPlanIdentification
  | NetworkDetermined
  | IsdnTelephone
  | Data
  | Telex
  | National
  | Private
  | Ermes
deriving DecidableEq

/-- Discriminant values of `NumberingPlanIdentification`. -/
def NumberingPlanIdentification.toU8 : NumberingPlanIdentification → Nat
  | .NetworkDetermined => 0
  | .IsdnTelephone => 1
  | .Data => 3
  | .Telex => 4
  | .National => 8
  | .Private => 9
  | .Ermes => 10

/-- `NumberingPlanIdentification::from_u8` as derived by `FromPrimitive`. -/
def NumberingPlanIdentification.fromU8 (n : Nat) : Option NumberingPlanIdentification :=
  if n = 0 then some .NetworkDetermined
  else if n = 1 then some .IsdnTelephone
  else if n = 3 then some .Data
  else if n = 4 then some .Telex
  else if n = 8 then some .National
  else if n = 9 then some .Private
  else if n = 10 then some .Ermes
  else none

/-- `AddressType` (pdu.rs lines 87-90). -/
structure AddressType where
  type_of_number : TypeOfNumber
  numbering_plan_identification : NumberingPlanIdentification
deriving DecidableEq

/-- `impl TryFrom<u8> for AddressType` (pdu.rs lines 99-113). -/
def AddressType.tryFrom (b : Nat) : Except String AddressType :=
  match TypeOfNumber.fromU8 (b &&& 0b01110000) with
  | none => .error "invalid type_of_number"
  | some ton =>
    match NumberingPlanIdentification.fromU8 (b &&& 0b00001111) with
    | none => .error "invalid numbering_plan_identification"
    | some npi => .ok { type_of_number := ton, numbering_plan_identification := npi }

/-- `impl Into<u8> for AddressType` (pdu.rs lines 114-121). -/
def AddressType.toU8 (a : AddressType) : Nat :=
  (0b10000000 ||| a.type_of_number.toU8) ||| a.numbering_plan_identification.toU8

/-- `PhoneNumber` (pdu.rs line 123): a vector of 4-bit digits. -/
structure PhoneNumber where
  digits : List Nat
deriving DecidableEq

/-- Loop of `impl From<&[u8]> for PhoneNumber` (pdu.rs lines 124-137): each
byte yields its low nybble, then its high nybble unless that is `0b1111`. -/
def phoneDigitsOfBytes : List Nat → List Nat
  | [] => []
  | x :: rest =>
    let first := x &&& 0b00001111
    let second := (x &&& 0b11110000) >>> 4
    if second = 0b00001111 then first :: phoneDigitsOfBytes rest
    else first :: second :: phoneDigitsOfBytes rest

/-- `PhoneNumber::from(&[u8])`. -/
def PhoneNumber.ofBytes (b : List Nat) : PhoneNumber :=
  { digits := phoneDigitsOfBytes b }

/-- Loop of `PhoneNumber::as_bytes` (pdu.rs lines 139-159): digits are packed
two per octet, low nybble first; a trailing odd digit is padded with `0xF0`. -/
def phoneBytesOfDigits : List Nat → List Nat
  | [] => []
  | [a] => [a ||| 0b11110000]
  | a :: b :: rest => (a ||| ((b <<< 4) % 256)) :: phoneBytesOfDigits rest

/-- `PhoneNumber::as_bytes`. -/
def PhoneNumber.asBytes (n : PhoneNumber) : List Nat :=
  phoneBytesOfDigits n.digits

/-- `PduAddress` (pdu.rs lines 162-165). -/
structure PduAddress where
  type_addr : AddressType
  number : PhoneNumber
deriving DecidableEq

/-- `impl TryFrom<&[u8]> for PduAddress` (pdu.rs lines 211-221). -/
def PduAddress.tryFrom (b : List Nat) : Except String PduAddress :=
  if b.length < 2 then .error "tried to make a PduAddress from less than 2 bytes"
  else
    match AddressType.tryFrom (b.headD 0) with
    | .error e => .error e
    | .ok ta => .ok { type_addr := ta, number := PhoneNumber.ofBytes b.tail }

/-- `PduAddress::as_bytes` (pdu.rs lines 222-235).  With `broken_len` the
length octet counts number nybbles, otherwise the following octets. -/
def PduAddress.asBytes (a : PduAddress) (broken_len : Bool) : List Nat :=
  let ret := a.type_addr.toU8 :: a.number.asBytes
  let len := if broken_len then a.number.digits.length else ret.length
  (len % 256) :: ret

example : (PduAddress.mk ⟨.International, .IsdnTelephone⟩ ⟨[4,4,7,7,0,0,9,0,0,1,2,3]⟩).asBytes
    true = [0x0C, 0x91, 0x44, 0x77, 0x00, 0x09, 0x10, 0x32] := by decide

/-- `MessageType` (pdu.rs lines 238-243). -/
inductive MessageType
  | SmsDeliver
  | SmsCommand
  | SmsSubmit
  | Reserved
deriving DecidableEq

/-- Discriminant values of `MessageType`. -/
def MessageType.toU8 : MessageType → Nat
  | .SmsDeliver => 0b00
  | .SmsCommand => 0b10
  | .SmsSubmit => 0b01
  | .Reserved => 0b11

/-- `MessageType::from_u8` on a 2-bit masked value.  The source calls
`from_u8(b & 0b11).expect(..)`; since the mask makes every case hit one of
the four discriminants, the `none` case is unreachable and folded into
`Reserved` (discriminant 3). -/
def MessageType.fromU8 (n : Nat) : MessageType :=
  if n = 0b00 then .SmsDeliver
  else if n = 0b01 then .SmsSubmit
  else if n = 0b10 then .SmsCommand
  else .Reserved

/-- `VpFieldValidity` (pdu.rs lines 246-251). -/
inductive VpFieldValidity
  | Invalid
  | Relative
  | Enhanced
  | Absolute
deriving DecidableEq

/-- Discriminant values of `VpFieldValidity`. -/
def VpFieldValidity.toU8 : VpFieldValidity → Nat
  | .Invalid => 0b0000
  | .Relative => 0b1000
  | .Enhanced => 0b0100
  | .Absolute => 0b1100

/-- `VpFieldValidity::from_u8` on a masked value (`b & 0b1100`); the `none`
case is unreachable and folded into `Absolute` (discriminant 12). -/
def VpFieldValidity.fromU8 (n : Nat) : VpFieldValidity :=
  if n = 0b0000 then .Invalid
  else if n = 0b0100 then .Enhanced
  else if n = 0b1000 then .Relative
  else .Absolute

/-- `PduFirstOctet` (pdu.rs lines 253-260). -/
structure PduFirstOctet where
  mti : MessageType
  rd : Bool
  vpf : VpFieldValidity
  srr : Bool
  udhi : Bool
  rp : Bool
deriving DecidableEq

/-- `impl From<u8> for PduFirstOctet` (pdu.rs lines 261-273). -/
def PduFirstOctet.fromU8 (b : Nat) : PduFirstOctet :=
  { rd := b &&& 0b00000100 != 0
    srr := b &&& 0b00100000 != 0
    udhi := b &&& 0b01000000 != 0
    rp := b &&& 0b10000000 != 0
    mti := MessageType.fromU8 (b &&& 0b00000011)
    vpf := VpFieldValidity.fromU8 (b &&& 0b00001100) }

/-- `impl Into<u8> for PduFirstOctet` (pdu.rs lines 274-293). -/
def PduFirstOctet.toU8 (fo : PduFirstOctet) : Nat :=
  ((((fo.mti.toU8 ||| fo.vpf.toU8)
    ||| (if fo.rd then 0b00000100 else 0))
    ||| (if fo.srr then 0b00100000 else 0))
    ||| (if fo.udhi then 0b01000000 else 0))
    ||| (if fo.rp then 0b10000000 else 0)

/-- `MessageWaitingType` (pdu.rs lines 416-421). -/
inductive MessageWaitingType
  | Voice
  | Fax
  | Email
  | Unknown
deriving DecidableEq

/-- Discriminant values of `MessageWaitingType`. -/
def MessageWaitingType.toU8 : MessageWaitingType → Nat
  | .Voice => 0b00
  | .Fax => 0b01
  | .Email => 0b10
  | .Unknown => 0b11

/-- `MessageWaitingType::from_u8` on a 2-bit masked value; the `none` case is
unreachable and folded into `Unknown` (discriminant 3). -/
def MessageWaitingType.fromU8 (n : Nat) : MessageWaitingType :=
  if n = 0b00 then .Voice
  else if n = 0b01 then .Fax
  else if n = 0b10 then .Email
  else .Unknown

/-- `MessageClass` (pdu.rs lines 424-429). -/
inductive MessageClass
  | Silent
  | StoreToNv
  | StoreToSim
  | StoreToTe
deriving DecidableEq

/-- Discriminant values of `MessageClass`. -/
def MessageClass.toU8 : MessageClass → Nat
  | .Silent => 0b00
  | .StoreToNv => 0b01
  | .StoreToSim => 0b10
  | .StoreToTe => 0b11

/-- `MessageClass::from_u8` on a 2-bit masked value; the `none` case is
unreachable and folded into `StoreToTe` (discriminant 3). -/
def MessageClass.fromU8 (n : Nat) : MessageClass :=
  if n = 0b00 then .Silent
  else if n = 0b01 then .StoreToNv
  else if n = 0b10 then .StoreToSim
  else .StoreToTe

/-- `MessageEncoding` (pdu.rs lines 432-437). -/
inductive MessageEncoding
  | Gsm7Bit
  | EightBit
  | Ucs2
  | Reserved
deriving DecidableEq

/-- Discriminant values of `MessageEncoding`. -/
def MessageEncoding.toU8 : MessageEncoding → Nat
  | .Gsm7Bit => 0b0000
  | .EightBit => 0b0100
  | .Ucs2 => 0b1000
  | .Reserved => 0b1100

/-- `MessageEncoding::from_u8` on a masked value (`b & 0b1100`); the `none`
case is unreachable and folded into `Reserved` (discriminant 12). -/
def MessageEncoding.fromU8 (n : Nat) : MessageEncoding :=
  if n = 0b0000 then .Gsm7Bit
  else if n = 0b0100 then .EightBit
  else if n = 0b1000 then .Ucs2
  else .Reserved

/-- `DataCodingScheme` (pdu.rs lines 295-311).  The Rust field `class` is
named `mclass` here because `class` is a Lean keyword. -/
inductive DataCodingScheme
  | Standard (compressed : Bool) (mclass : MessageClass) (encoding : MessageEncoding)
  | Reserved
  | MessageWaitingDiscard (waiting : Bool) (type_indication : MessageWaitingType)
  | MessageWaiting (waiting : Bool) (type_indication : MessageWaitingType) (ucs2 : Bool)
deriving DecidableEq

/-- `impl From<u8> for DataCodingScheme` (pdu.rs lines 328-375). -/
def DataCodingScheme.fromU8 (b : Nat) : DataCodingScheme :=
  if b &&& 0b11000000 = 0b00000000 then
    let compressed : Bool := b &&& 0b00100000 != 0
    let reserved : Bool := b &&& 0b00010000 != 0
    let mclass := if reserved then MessageClass.StoreToNv
      else MessageClass.fromU8 (b &&& 0b00000011)
    let encoding := MessageEncoding.fromU8 (b &&& 0b00001100)
    .Standard compressed mclass encoding
  else if b &&& 0b11110000 = 0b11110000 then
    .Standard false (MessageClass.fromU8 (b &&& 0b00000011))
      (if b &&& 0b00000100 != 0 then .Gsm7Bit else .EightBit)
  else if b &&& 0b11110000 = 0b11000000 then
    .MessageWaitingDiscard (b &&& 0b00001000 != 0) (MessageWaitingType.fromU8 (b &&& 0b00000011))
  else if b &&& 0b11110000 = 0b11010000 ∨ b &&& 0b11110000 = 0b11100000 then
    .MessageWaiting (b &&& 0b00001000 != 0) (MessageWaitingType.fromU8 (b &&& 0b00000011))
      (b &&& 0b11110000 == 0b11100000)
  else
    .Reserved

/-- `impl Into<u8> for DataCodingScheme` (pdu.rs lines 376-413). -/
def DataCodingScheme.toU8 : DataCodingScheme → Nat
  | .Standard compressed mclass encoding =>
    (((0b00010000 ||| (if compressed then 0b00100000 else 0)))
      ||| mclass.toU8) ||| encoding.toU8
  | .Reserved => 0b01000101
  | .MessageWaiting waiting type_indication ucs2 =>
    ((if ucs2 then 0b11100000 else 0b11010000)
      ||| (if waiting then 0b00001000 else 0)) ||| type_indication.toU8
  | .MessageWaitingDiscard waiting type_indication =>
    (0b11000000 ||| (if waiting then 0b00001000 else 0)) ||| type_indication.toU8

/-- `DeliverPduFirstOctet` (pdu.rs lines 439-444). -/
structure DeliverPduFirstOctet where
  mti : MessageType
  sri : Bool
  udhi : Bool
  rp : Bool
deriving DecidableEq

/-- `impl From<u8> for DeliverPduFirstOctet` (pdu.rs lines 445-454): note
that the source computes `rp` from `b & 0b01000000`, the same mask as
`udhi`. -/
def DeliverPduFirstOctet.fromU8 (b : Nat) : DeliverPduFirstOctet :=
  { mti := MessageType.fromU8 (b &&& 0b00000011)
    sri := b &&& 0b00100000 != 0
    udhi := b &&& 0b01000000 != 0
    rp := b &&& 0b01000000 != 0 }

/-- `SmscTimestamp` (pdu.rs lines 456-464). -/
structure SmscTimestamp where
  year : Nat
  month : Nat
  day : Nat
  hour : Nat
  minute : Nat
  second : Nat
  timezone : Nat
deriving DecidableEq

/-- `reverse_byte` (pdu.rs lines 465-469). -/
def reverse_byte (b : Nat) : Nat :=
  ((b &&& 0b00001111) * 10) + (b >>> 4)

/-- `impl TryFrom<&[u8]> for SmscTimestamp` (pdu.rs lines 470-486). -/
def SmscTimestamp.tryFrom (b : List Nat) : Except String SmscTimestamp :=
  if b.length ≠ 7 then .error "SmscTimestamp must be 7 bytes long"
  else .ok
    { year := reverse_byte (b.getD 0 0)
      month := reverse_byte (b.getD 1 0)
      day := reverse_byte (b.getD 2 0)
      hour := reverse_byte (b.getD 3 0)
      minute := reverse_byte (b.getD 4 0)
      second := reverse_byte (b.getD 5 0)
      timezone := reverse_byte (b.getD 6 0) }

/-- `Pdu` (pdu.rs lines 571-580): an SMS-SUBMIT. -/
structure Pdu where
  sca : Option PduAddress
  first_octet : PduFirstOctet
  message_id : Nat
  destination : PduAddress
  dcs : DataCodingScheme
  validity_period : Nat
  user_data : List Nat
  user_data_len : Nat
deriving DecidableEq

/-- `DeliverPdu` (pdu.rs lines 488-496): an SMS-DELIVER. -/
structure DeliverPdu where
  sca : Option PduAddress
  first_octet : DeliverPduFirstOctet
  originating_address : PduAddress
  dcs : DataCodingScheme
  scts : SmscTimestamp
  user_data : List Nat
  user_data_len : Nat
deriving DecidableEq

/-- Result type for the PDU parsers: a Rust panic (an unchecked slice index)
is a distinct outcome from a structured `HuaweiError::InvalidPdu`. -/
inductive PResult (α : Type)
  | ok (value : α)
  | invalid (msg : String)
  | panicked
deriving DecidableEq

/-- `check_offset!` (pdu.rs lines 7-13) fused with the subsequent gated read
`b[offset]`: returns the byte when the offset is in bounds and the
`InvalidPdu` error otherwise. -/
def checkOffset (b : List Nat) (i : Nat) (reason : String) : Except String Nat :=
  match b[i]? with
  | none => .error ("Offset check failed for: " ++ reason)
  | some x => .ok x

/-- `impl TryFrom<&[u8]> for Pdu` (pdu.rs lines 609-672), after the unchecked
read of `b[0]` has produced `scalen`. -/
def Pdu.tryFromChecked (b : List Nat) (scalen : Nat) : Except String Pdu := do
  let offset := scalen + 1
  let sca ← (if 0 < scalen then do
      let _ ← checkOffset b (offset - 1) "SCA"
      let a ← PduAddress.tryFrom ((b.drop 1).take (offset - 1))
      pure (some a)
    else pure none)
  let foB ← checkOffset b offset "first octet"
  let first_octet := PduFirstOctet.fromU8 foB
  let offset := offset + 1
  let message_id ← checkOffset b offset "message ID"
  let offset := offset + 1
  let destination_len ← checkOffset b offset "destination len"
  let offset := offset + 1
  let real_len := destination_len / 2 + destination_len % 2 + 1
  let destination_end := offset + real_len
  let _ ← checkOffset b (destination_end - 1) "destination address"
  let destination ← PduAddress.tryFrom ((b.drop offset).take real_len)
  let offset := offset + real_len
  let _pid ← checkOffset b offset "protocol identifier"
  let offset := offset + 1
  let dcsB ← checkOffset b offset "data coding scheme"
  let dcs := DataCodingScheme.fromU8 dcsB
  let offset := offset + 1
  let vpoff ← (if first_octet.vpf ≠ VpFieldValidity.Invalid then do
      let v ← checkOffset b offset "validity period"
      pure (v, offset + 1)
    else pure (0, offset))
  let validity_period := vpoff.1
  let offset := vpoff.2
  let user_data_len ← checkOffset b offset "user data len"
  let offset := offset + 1
  let user_data := if (b[offset]?).isSome then b.drop offset else []
  pure { sca, first_octet, message_id, destination, dcs, validity_period,
         user_data, user_data_len }

/-- `impl TryFrom<&[u8]> for Pdu` (pdu.rs lines 609-672).  The first read
`let scalen = b[0];` is unguarded: on the empty slice it panics. -/
def Pdu.tryFrom (b : List Nat) : PResult Pdu :=
  match b[0]? with
  | none => .panicked
  | some scalen =>
    match Pdu.tryFromChecked b scalen with
    | .ok p => .ok p
    | .error e => .invalid e

/-- `impl TryFrom<&[u8]> for DeliverPdu` (pdu.rs lines 507-569), after the
unchecked read of `b[0]` has produced `scalen`. -/
def DeliverPdu.tryFromChecked (b : List Nat) (scalen : Nat) :
    Except String DeliverPdu := do
  let offset := scalen + 1
  let sca ← (if 0 < scalen then do
      let _ ← checkOffset b (offset - 1) "SCA"
      let a ← PduAddress.tryFrom ((b.drop 1).take (offset - 1))
      pure (some a)
    else pure none)
  let foB ← checkOffset b offset "first octet"
  let first_octet := DeliverPduFirstOctet.fromU8 foB
  let offset := offset + 1
  let destination_len ← checkOffset b offset "originating address len"
  let offset := offset + 1
  let real_len := destination_len / 2 + 1
  let destination_end := offset + real_len
  let _ ← checkOffset b (destination_end - 1) "originating address"
  let originating_address ← PduAddress.tryFrom ((b.drop offset).take real_len)
  let offset := if originating_address.type_addr.type_of_number = TypeOfNumber.Gsm
    then offset + 1 else offset
  let offset := offset + real_len
  let _pid ← checkOffset b offset "protocol identifier"
  let offset := offset + 1
  let dcsB ← checkOffset b offset "data coding scheme"
  let dcs := DataCodingScheme.fromU8 dcsB
  let offset := offset + 1
  let scts_end := offset + 7
  let _ ← checkOffset b (offset + 6) "service center timestamp"
  let scts ← SmscTimestamp.tryFrom ((b.drop offset).take (scts_end - offset))
  let offset := offset + 7
  let user_data_len ← checkOffset b offset "user data len"
  let offset := offset + 1
  let user_data := if (b[offset]?).isSome then b.drop offset else []
  pure { sca, first_octet, originating_address, dcs, scts, user_data, user_data_len }

/-- `impl TryFrom<&[u8]> for DeliverPdu` (pdu.rs lines 507-569).  The first
read `let scalen = b[0];` is unguarded: on the empty slice it panics. -/
def DeliverPdu.tryFrom (b : List Nat) : PResult DeliverPdu :=
  match b[0]? with
  | none => .panicked
  | some scalen =>
    match DeliverPdu.tryFromChecked b scalen with
    | .ok p => .ok p
    | .error e => .invalid e

/-- `Pdu::as_bytes` (pdu.rs lines 673-698): serialises an SMS-SUBMIT and
returns the bytes together with the TPDU length. -/
def Pdu.asBytes (p : Pdu) : List Nat × Nat :=
  let scaBytes := match p.sca with
    | some sca => sca.asBytes false
    | none => [0]
  let scalen := match p.sca with
    | some sca => (sca.asBytes false).length
    | none => 1
  let ret := scaBytes ++ p.first_octet.toU8 :: p.message_id
      :: (p.destination.asBytes true
        ++ 0 :: p.dcs.toU8
        :: ((if p.first_octet.vpf ≠ VpFieldValidity.Invalid then [p.validity_period] else [])
          ++ p.user_data_len :: p.user_data))
  (ret, ret.length - scalen)

/-! ## Phone number round trip -/

theorem phone_pair_low : ∀ a < 16, ∀ b < 16, (a ||| ((b <<< 4) % 256)) &&& 15 = a := by
  decide

theorem phone_pair_high : ∀ a < 16, ∀ b < 16,
    ((a ||| ((b <<< 4) % 256)) &&& 240) >>> 4 = b := by
  decide

theorem phone_odd_low : ∀ a < 16, (a ||| 240) &&& 15 = a := by decide

theorem phone_odd_high : ∀ a < 16, ((a ||| 240) &&& 240) >>> 4 = 15 := by decide

/-- Unpacking inverts packing for 4-bit digits none of which is `0xF`
(claim C8). -/
theorem phone_roundtrip : ∀ (D : List Nat), (∀ d ∈ D, d < 16 ∧ d ≠ 15) →
    phoneDigitsOfBytes (phoneBytesOfDigits D) = D
  | [], _ => rfl
  | [a], h => by
    have ha := h a (by simp)
    simp only [phoneBytesOfDigits, phoneDigitsOfBytes]
    rw [phone_odd_low a ha.1, phone_odd_high a ha.1]
    simp
  | a :: b :: rest, h => by
    have ha := h a (by simp)
    have hb := h b (by simp)
    simp only [phoneBytesOfDigits, phoneDigitsOfBytes]
    rw [phone_pair_low a ha.1 b hb.1, phone_pair_high a ha.1 b hb.1]
    rw [if_neg hb.2]
    rw [phone_roundtrip rest (fun d hd => h d (by simp [hd]))]

/-- Packed length is the nybble count rounded up to whole octets. -/
theorem phoneBytes_length : ∀ (D : List Nat),
    (phoneBytesOfDigits D).length = (D.length + 1) / 2
  | [] => rfl
  | [_] => by simp [phoneBytesOfDigits]
  | _ :: _ :: rest => by
    simp only [phoneBytesOfDigits, List.length_cons]
    rw [phoneBytes_length rest]
    omega

/-- `AddressType` survives serialisation and reparsing. -/
theorem addressType_roundtrip (a : AddressType) :
    AddressType.tryFrom (AddressType.toU8 a) = .ok a := by
  obtain ⟨t, n⟩ := a
  cases t <;> cases n <;> rfl

/-- Parsing the serialised type octet and packed digits of an address built
from decimal digits recovers the address. -/
theorem pduAddress_parse (a : PduAddress)
    (hne : a.number.digits ≠ []) (hdig : ∀ d ∈ a.number.digits, d < 10) :
    PduAddress.tryFrom (a.type_addr.toU8 :: a.number.asBytes) = .ok a := by
  have hd0 : a.number.digits.length ≠ 0 := fun h => hne (List.length_eq_zero.mp h)
  have hlen : ¬ (a.type_addr.toU8 :: a.number.asBytes).length < 2 := by
    simp only [List.length_cons, PhoneNumber.asBytes]
    rw [phoneBytes_length]
    omega
  unfold PduAddress.tryFrom
  rw [if_neg hlen]
  simp only [List.headD_cons, List.tail_cons]
  rw [addressType_roundtrip]
  have hph : phoneDigitsOfBytes (phoneBytesOfDigits a.number.digits) = a.number.digits :=
    phone_roundtrip _ (fun d hd' => by have := hdig d hd'; omega)
  simp [PhoneNumber.ofBytes, PhoneNumber.asBytes, hph]

/-- The SMS-SUBMIT first octet survives serialisation and reparsing when the
`rd` flag is clear and the VPF is `Invalid` or `Relative` (the `rd` bit and
the VPF field share bit 2 in this implementation, so the other combinations
do not round-trip). -/
theorem firstOctet_roundtrip : ∀ (fo : PduFirstOctet), fo.rd = false →
    (fo.vpf = .Invalid ∨ fo.vpf = .Relative) →
    PduFirstOctet.fromU8 (PduFirstOctet.toU8 fo) = fo := by
  intro ⟨mti, rd, vpf, srr, udhi, rp⟩ hrd hvpf
  simp only at hrd hvpf
  subst hrd
  cases mti <;> rcases hvpf with h | h <;> subst h <;>
    cases srr <;> cases udhi <;> cases rp <;> rfl

/-! ## Well-formed SMS-SUBMIT values -/

/-- Well-formedness of an address: a non-empty number of decimal digits,
short enough that the `as u8` length casts do not wrap. -/
def PduAddress.wf (a : PduAddress) : Prop :=
  a.number.digits ≠ [] ∧ a.number.digits.length < 256 ∧ ∀ d ∈ a.number.digits, d < 10

instance (a : PduAddress) : Decidable a.wf := by
  unfold PduAddress.wf
  infer_instance

/-- Well-formedness of the optional service-centre address. -/
def scaWf : Option PduAddress → Prop
  | none => True
  | some a => a.wf

instance (o : Option PduAddress) : Decidable (scaWf o) := by
  cases o <;> simp only [scaWf] <;> infer_instance

/-- Well-formed SMS-SUBMIT: addresses hold decimal digits, `u8` fields are in
range, the first octet has `rd` clear and a VPF the encoding can represent
(`Invalid` or `Relative`, cf. the spec's validity-period limitation), the
validity period is zero when the VPF is `Invalid` (the serialiser omits the
octet, the parser then yields 0), and the DCS octet is canonical (it decodes
from some octet, equivalently it is a fixed point of decode-of-encode). -/
def Pdu.wf (p : Pdu) : Prop :=
  scaWf p.sca ∧ p.destination.wf
    ∧ p.message_id < 256 ∧ p.validity_period < 256 ∧ p.user_data_len < 256
    ∧ p.first_octet.mti = MessageType.SmsSubmit
    ∧ p.first_octet.rd = false
    ∧ (p.first_octet.vpf = VpFieldValidity.Invalid
        ∨ p.first_octet.vpf = VpFieldValidity.Relative)
    ∧ (p.first_octet.vpf = VpFieldValidity.Invalid → p.validity_period = 0)
    ∧ DataCodingScheme.fromU8 (DataCodingScheme.toU8 p.dcs) = p.dcs

instance (p : Pdu) : Decidable p.wf := by
  unfold Pdu.wf
  infer_instance

/-! ## Except-monad stepping lemmas -/

theorem exc_ok_bind {α β : Type} (a : α) (f : α → Except String β) :
    (Except.ok a >>= f) = f a := rfl

theorem exc_pure_bind {α β : Type} (a : α) (f : α → Except String β) :
    ((pure a : Except String α) >>= f) = f a := rfl

theorem checkOffset_ok (b : List Nat) (i : Nat) (r : String) (v : Nat)
    (h : b[i]? = some v) : checkOffset b i r = .ok v := by
  unfold checkOffset
  rw [h]

theorem checkOffset_bind_discard {α : Type} (b : List Nat) (i : Nat) (r : String)
    (k : Except String α) (h : i < b.length) :
    (checkOffset b i r >>= fun _ => k) = k := by
  unfold checkOffset
  rw [List.getElem?_eq_getElem h]
  rfl

theorem checkOffset_inBounds (b : List Nat) (i : Nat) (r : String) (h : i < b.length) :
    checkOffset b i r = .ok (b.getD i 0) := by
  unfold checkOffset
  rw [List.getElem?_eq_getElem h, List.getD_eq_getElem?_getD, List.getElem?_eq_getElem h]
  rfl

/-! ## Indexing helpers for the serialised byte layout -/

theorem getElem?_cons4_append {α : Type} (c0 c1 c2 c3 : α) (A B : List α) (k : Nat) :
    (c0 :: c1 :: c2 :: c3 :: (A ++ B))[4 + A.length + k]? = B[k]? := by
  rw [show 4 + A.length + k = A.length + k + 1 + 1 + 1 + 1 from by omega]
  simp only [List.getElem?_cons_succ]
  rw [List.getElem?_append_right (by omega)]
  congr 1
  omega

theorem drop_cons4_append {α : Type} (c0 c1 c2 c3 : α) (A B : List α) (k : Nat) :
    (c0 :: c1 :: c2 :: c3 :: (A ++ B)).drop (4 + A.length + k) = B.drop k := by
  rw [show c0 :: c1 :: c2 :: c3 :: (A ++ B) = ([c0, c1, c2, c3] ++ A) ++ B from by simp]
  rw [show 4 + A.length + k = ([c0, c1, c2, c3] ++ A).length + k from by
    simp only [List.length_append, List.length_cons, List.length_nil]]
  rw [List.drop_append]

/-- Evaluation of the SMS-SUBMIT parser body on a byte list of the exact
shape the serialiser produces.  `pre` is the SCA region after the length
octet, `nb` the packed destination digits, `vpB` the (possibly empty)
validity-period segment and `ud` the user data. -/
theorem Pdu.tryFromChecked_eval
    (scalen : Nat) (pre : List Nat) (scaVal : Option PduAddress)
    (foB mid dlB ta dcsB udl : Nat) (nb vpB ud : List Nat) (destA : PduAddress)
    (hpre : pre.length = scalen)
    (hsca : (scalen = 0 ∧ scaVal = none) ∨
      (0 < scalen ∧ ∃ a, scaVal = some a ∧ PduAddress.tryFrom pre = .ok a))
    (hreal : dlB / 2 + dlB % 2 + 1 = nb.length + 1)
    (hdest : PduAddress.tryFrom (ta :: nb) = .ok destA)
    (hvp : (vpB = [] ∧ (PduFirstOctet.fromU8 foB).vpf = VpFieldValidity.Invalid) ∨
      (∃ v, vpB = [v] ∧ (PduFirstOctet.fromU8 foB).vpf ≠ VpFieldValidity.Invalid)) :
    Pdu.tryFromChecked
      ((scalen :: pre) ++ foB :: mid :: dlB :: ta :: (nb ++ 0 :: dcsB :: (vpB ++ udl :: ud)))
      scalen
      = .ok { sca := scaVal
              first_octet := PduFirstOctet.fromU8 foB
              message_id := mid
              destination := destA
              dcs := DataCodingScheme.fromU8 dcsB
              validity_period := vpB.headD 0
              user_data := ud
              user_data_len := udl } := by
  set T := foB :: mid :: dlB :: ta :: (nb ++ 0 :: dcsB :: (vpB ++ udl :: ud)) with hT
  set L := (scalen :: pre) ++ T with hLdef
  have hpreL : (scalen :: pre).length = scalen + 1 := by simp [hpre]
  have hTlen : 4 + nb.length + 3 ≤ T.length := by
    rw [hT]
    simp only [List.length_cons, List.length_append]
    omega
  have hLlen : L.length = scalen + 1 + T.length := by
    rw [hLdef, List.length_append, hpreL]
  have hidx : ∀ k, L[scalen + 1 + k]? = T[k]? := by
    intro k
    rw [hLdef, List.getElem?_append_right (by omega)]
    congr 1
    omega
  have hdropL : ∀ k, L.drop (scalen + 1 + k) = T.drop k := by
    intro k
    rw [hLdef, show scalen + 1 + k = (scalen :: pre).length + k from by omega,
      List.drop_append]
  show Pdu.tryFromChecked L scalen = _
  simp only [Pdu.tryFromChecked]
  -- the SCA branch
  have hscaStep :
      (if 0 < scalen then do
        let _ ← checkOffset L (scalen + 1 - 1) "SCA"
        let a ← PduAddress.tryFrom ((L.drop 1).take (scalen + 1 - 1))
        pure (some a)
      else pure none)
        = (pure scaVal : Except String (Option PduAddress)) := by
    rcases hsca with ⟨h0, hval⟩ | ⟨h0, a, hval, hparse⟩
    · subst h0
      rw [if_neg (by omega)]
      rw [hval]
    · rw [if_pos h0]
      rw [checkOffset_inBounds _ _ _ (by omega), exc_ok_bind]
      have hdrop1 : L.drop 1 = pre ++ T := by
        rw [hLdef]
        rfl
      have htake : (pre ++ T).take (scalen + 1 - 1) = pre := by
        rw [show scalen + 1 - 1 = pre.length from by omega]
        exact List.take_left pre T
      rw [hdrop1, htake, hparse, exc_ok_bind, hval]
  rw [hscaStep, exc_pure_bind]
  -- first octet, message id, destination length
  have hfoB : checkOffset L (scalen + 1) "first octet" = .ok foB := by
    apply checkOffset_ok
    rw [show scalen + 1 = scalen + 1 + 0 from by omega, hidx]
    rfl
  rw [hfoB, exc_ok_bind]
  have hmid : checkOffset L (scalen + 1 + 1) "message ID" = .ok mid := by
    apply checkOffset_ok
    rw [hidx]
    simp [hT]
  rw [hmid, exc_ok_bind]
  have hdlB : checkOffset L (scalen + 1 + 1 + 1) "destination len" = .ok dlB := by
    apply checkOffset_ok
    rw [show scalen + 1 + 1 + 1 = scalen + 1 + 2 from by omega, hidx]
    simp [hT]
  rw [hdlB, exc_ok_bind]
  rw [hreal]
  -- destination address
  have hdchk : checkOffset L (scalen + 1 + 1 + 1 + 1 + (nb.length + 1) - 1)
      "destination address"
      = .ok (L.getD (scalen + 1 + 1 + 1 + 1 + (nb.length + 1) - 1) 0) := by
    apply checkOffset_inBounds
    omega
  rw [hdchk, exc_ok_bind]
  have hslice : (L.drop (scalen + 1 + 1 + 1 + 1)).take (nb.length + 1) = ta :: nb := by
    rw [show scalen + 1 + 1 + 1 + 1 = scalen + 1 + 3 from by omega, hdropL]
    rw [hT]
    show (ta :: (nb ++ 0 :: dcsB :: (vpB ++ udl :: ud))).take (nb.length + 1) = ta :: nb
    rw [List.take_succ_cons, List.take_left]
  rw [hslice, hdest, exc_ok_bind]
  -- protocol identifier and DCS
  have hpid : checkOffset L (scalen + 1 + 1 + 1 + 1 + (nb.length + 1))
      "protocol identifier" = .ok 0 := by
    apply checkOffset_ok
    rw [show scalen + 1 + 1 + 1 + 1 + (nb.length + 1) = scalen + 1 + (4 + nb.length + 0)
      from by omega, hidx, hT]
    rw [getElem?_cons4_append]
    rfl
  rw [hpid, exc_ok_bind]
  have hdcsB : checkOffset L (scalen + 1 + 1 + 1 + 1 + (nb.length + 1) + 1)
      "data coding scheme" = .ok dcsB := by
    apply checkOffset_ok
    rw [show scalen + 1 + 1 + 1 + 1 + (nb.length + 1) + 1 = scalen + 1 + (4 + nb.length + 1)
      from by omega, hidx, hT]
    rw [getElem?_cons4_append]
    simp
  rw [hdcsB, exc_ok_bind]
  -- validity period
  rcases hvp with ⟨hvnil, hvinv⟩ | ⟨v, hvcons, hvrel⟩
  · subst hvnil
    rw [if_neg (by simp [hvinv])]
    rw [exc_pure_bind]
    simp only [List.nil_append] at hT
    have hudl : checkOffset L (scalen + 1 + 1 + 1 + 1 + (nb.length + 1) + 1 + 1)
        "user data len" = .ok udl := by
      apply checkOffset_ok
      rw [show scalen + 1 + 1 + 1 + 1 + (nb.length + 1) + 1 + 1
        = scalen + 1 + (4 + nb.length + 2) from by omega, hidx, hT]
      rw [getElem?_cons4_append]
      simp
    rw [hudl, exc_ok_bind]
    have hudIdx : L[scalen + 1 + 1 + 1 + 1 + (nb.length + 1) + 1 + 1 + 1]? = ud[0]? := by
      rw [show scalen + 1 + 1 + 1 + 1 + (nb.length + 1) + 1 + 1 + 1
        = scalen + 1 + (4 + nb.length + 3) from by omega, hidx, hT]
      rw [getElem?_cons4_append]
      simp
    have hudDrop : L.drop (scalen + 1 + 1 + 1 + 1 + (nb.length + 1) + 1 + 1 + 1) = ud := by
      rw [show scalen + 1 + 1 + 1 + 1 + (nb.length + 1) + 1 + 1 + 1
        = scalen + 1 + (4 + nb.length + 3) from by omega, hdropL, hT]
      rw [drop_cons4_append]
      simp
    have hudEq : (if (L[scalen + 1 + 1 + 1 + 1 + (nb.length + 1) + 1 + 1 + 1]?).isSome then L.drop (scalen + 1 + 1 + 1 + 1 + (nb.length + 1) + 1 + 1 + 1) else []) = ud := by
      rw [hudIdx, hudDrop]
      cases ud with
      | nil => rfl
      | cons u us => simp
    rw [hudEq]
    rfl
  · subst hvcons
    rw [if_pos hvrel]
    have hvchk : checkOffset L (scalen + 1 + 1 + 1 + 1 + (nb.length + 1) + 1 + 1)
        "validity period" = .ok v := by
      apply checkOffset_ok
      rw [show scalen + 1 + 1 + 1 + 1 + (nb.length + 1) + 1 + 1
        = scalen + 1 + (4 + nb.length + 2) from by omega, hidx, hT]
      rw [getElem?_cons4_append]
      simp
    rw [hvchk, exc_ok_bind, exc_pure_bind]
    have hudl : checkOffset L (scalen + 1 + 1 + 1 + 1 + (nb.length + 1) + 1 + 1 + 1)
        "user data len" = .ok udl := by
      apply checkOffset_ok
      rw [show scalen + 1 + 1 + 1 + 1 + (nb.length + 1) + 1 + 1 + 1
        = scalen + 1 + (4 + nb.length + 3) from by omega, hidx, hT]
      rw [getElem?_cons4_append]
      simp
    rw [hudl, exc_ok_bind]
    have hudIdx : L[scalen + 1 + 1 + 1 + 1 + (nb.length + 1) + 1 + 1 + 1 + 1]? = ud[0]? := by
      rw [show scalen + 1 + 1 + 1 + 1 + (nb.length + 1) + 1 + 1 + 1 + 1
        = scalen + 1 + (4 + nb.length + 4) from by omega, hidx, hT]
      rw [getElem?_cons4_append]
      simp
    have hudDrop : L.drop (scalen + 1 + 1 + 1 + 1 + (nb.length + 1) + 1 + 1 + 1 + 1)
        = ud := by
      rw [show scalen + 1 + 1 + 1 + 1 + (nb.length + 1) + 1 + 1 + 1 + 1
        = scalen + 1 + (4 + nb.length + 4) from by omega, hdropL, hT]
      rw [drop_cons4_append]
      simp
    have hudEq : (if (L[scalen + 1 + 1 + 1 + 1 + (nb.length + 1) + 1 + 1 + 1 + 1]?).isSome then L.drop (scalen + 1 + 1 + 1 + 1 + (nb.length + 1) + 1 + 1 + 1 + 1) else []) = ud := by
      rw [hudIdx, hudDrop]
      cases ud with
      | nil => rfl
      | cons u us => simp
    rw [hudEq]
    rfl

theorem Pdu.tryFrom_of_checked (b : List Nat) (x : Nat) (p : Pdu)
    (hb : b[0]? = some x) (h : Pdu.tryFromChecked b x = .ok p) :
    Pdu.tryFrom b = .ok p := by
  unfold Pdu.tryFrom
  rw [hb]
  dsimp only
  rw [h]

/-- Round trip for well-formed SMS-SUBMIT values (claim C1): parsing the
serialised bytes recovers the value. -/
theorem pdu_roundtrip (p : Pdu) (h : p.wf) :
    Pdu.tryFrom (Pdu.asBytes p).1 = .ok p := by
  obtain ⟨sca, fo, mid, dest, dcs, vp, ud, udl⟩ := p
  obtain ⟨hsca, hdest, hmid, hvp256, hudl256, hmti, hrd, hvpf, hvpinv, hdcs⟩ := h
  obtain ⟨hdne, hdlt, hddig⟩ := hdest
  dsimp only at hsca hmid hvp256 hudl256 hmti hrd hvpf hvpinv hdcs hdne hdlt hddig
  have foRT : PduFirstOctet.fromU8 fo.toU8 = fo := firstOctet_roundtrip fo hrd hvpf
  have hnbLen : dest.number.asBytes.length = (dest.number.digits.length + 1) / 2 := by
    simp only [PhoneNumber.asBytes]
    exact phoneBytes_length _
  have hreal : dest.number.digits.length / 2 + dest.number.digits.length % 2 + 1
      = dest.number.asBytes.length + 1 := by
    rw [hnbLen]
    omega
  have hdparse := pduAddress_parse dest hdne hddig
  have hvpArg : ((if fo.vpf ≠ VpFieldValidity.Invalid then [vp] else []) = []
        ∧ (PduFirstOctet.fromU8 fo.toU8).vpf = VpFieldValidity.Invalid)
      ∨ (∃ v, (if fo.vpf ≠ VpFieldValidity.Invalid then [vp] else []) = [v]
        ∧ (PduFirstOctet.fromU8 fo.toU8).vpf ≠ VpFieldValidity.Invalid) := by
    rw [foRT]
    rcases hvpf with hv | hv
    · exact Or.inl ⟨by simp [hv], hv⟩
    · exact Or.inr ⟨vp, by simp [hv], by simp [hv]⟩
  cases sca with
  | none =>
    have hb : (Pdu.asBytes
        { sca := none, first_octet := fo, message_id := mid, destination := dest,
          dcs := dcs, validity_period := vp, user_data := ud, user_data_len := udl }).1
        = ((0 : Nat) :: ([] : List Nat)) ++ fo.toU8 :: mid
          :: dest.number.digits.length :: dest.type_addr.toU8
          :: (dest.number.asBytes ++ 0 :: dcs.toU8
            :: ((if fo.vpf ≠ VpFieldValidity.Invalid then [vp] else [])
              ++ udl :: ud)) := by
      simp [Pdu.asBytes, PduAddress.asBytes, Nat.mod_eq_of_lt hdlt]
    rw [hb]
    apply Pdu.tryFrom_of_checked _ 0
    · rfl
    · have heval := Pdu.tryFromChecked_eval 0 [] none fo.toU8 mid
        dest.number.digits.length dest.type_addr.toU8 dcs.toU8 udl
        dest.number.asBytes (if fo.vpf ≠ VpFieldValidity.Invalid then [vp] else []) ud dest
        rfl (Or.inl ⟨rfl, rfl⟩) hreal hdparse hvpArg
      rw [heval, foRT, hdcs]
      rcases hvpf with hv | hv
      · have hvz := hvpinv hv
        simp [hv, hvz]
      · simp [hv]
  | some a =>
    have haw : a.wf := hsca
    obtain ⟨hane, halt, hadig⟩ := haw
    have hnbALen : a.number.asBytes.length = (a.number.digits.length + 1) / 2 := by
      simp only [PhoneNumber.asBytes]
      exact phoneBytes_length _
    have hlenMod : (a.number.asBytes.length + 1) % 256 = a.number.asBytes.length + 1 := by
      apply Nat.mod_eq_of_lt
      omega
    have hb : (Pdu.asBytes
        { sca := some a, first_octet := fo, message_id := mid, destination := dest,
          dcs := dcs, validity_period := vp, user_data := ud, user_data_len := udl }).1
        = ((a.number.asBytes.length + 1) :: (a.type_addr.toU8 :: a.number.asBytes))
          ++ fo.toU8 :: mid
          :: dest.number.digits.length :: dest.type_addr.toU8
          :: (dest.number.asBytes ++ 0 :: dcs.toU8
            :: ((if fo.vpf ≠ VpFieldValidity.Invalid then [vp] else [])
              ++ udl :: ud)) := by
      simp [Pdu.asBytes, PduAddress.asBytes, Nat.mod_eq_of_lt hdlt, hlenMod]
    rw [hb]
    apply Pdu.tryFrom_of_checked _ (a.number.asBytes.length + 1)
    · rfl
    · have heval := Pdu.tryFromChecked_eval (a.number.asBytes.length + 1)
        (a.type_addr.toU8 :: a.number.asBytes) (some a) fo.toU8 mid
        dest.number.digits.length dest.type_addr.toU8 dcs.toU8 udl
        dest.number.asBytes (if fo.vpf ≠ VpFieldValidity.Invalid then [vp] else []) ud dest
        (by simp)
        (Or.inr ⟨by omega, a, rfl, pduAddress_parse a hane hadig⟩)
        hreal hdparse hvpArg
      rw [heval, foRT, hdcs]
      rcases hvpf with hv | hv
      · have hvz := hvpinv hv
        simp [hv, hvz]
      · simp [hv]

/-! ## No-panic lemmas for the parsers -/

theorem pduTryFrom_ne_panicked (b : List Nat) (h : b ≠ []) :
    Pdu.tryFrom b ≠ .panicked := by
  cases b with
  | nil => exact absurd rfl h
  | cons x rest =>
    unfold Pdu.tryFrom
    rw [show (x :: rest)[0]? = some x from by simp]
    dsimp only
    cases Pdu.tryFromChecked (x :: rest) x <;> simp

theorem deliverPduTryFrom_ne_panicked (b : List Nat) (h : b ≠ []) :
    DeliverPdu.tryFrom b ≠ .panicked := by
  cases b with
  | nil => exact absurd rfl h
  | cons x rest =>
    unfold DeliverPdu.tryFrom
    rw [show (x :: rest)[0]? = some x from by simp]
    dsimp only
    cases DeliverPdu.tryFromChecked (x :: rest) x <;> simp

/-! ## FromStr for addresses (pdu.rs lines 181-210) -/

/-- `impl FromStr for PduAddress`: keeps the decimal digits, a `+` anywhere
makes the type of number `International`, the NPI is always
`IsdnTelephone`. -/
def PduAddress.ofStr (st : List Char) : PduAddress :=
  let int := st.contains '+'
  let buf := st.filterMap (fun x =>
    if '0' ≤ x ∧ x ≤ '9' then some (x.toNat - 48) else none)
  { type_addr :=
      { type_of_number := if int then .International else .Unknown
        numbering_plan_identification := .IsdnTelephone }
    number := { digits := buf } }

/-- Canonical class field: a decoded `DataCodingScheme` re-encodes to an
octet that decodes to the same value exactly when any `Standard` class is
`StoreToNv` (the encoder always sets the bit-4 "reserved" flag, which makes
the decoder default the class to `StoreToNv`). -/
def DataCodingScheme.classCanonical : DataCodingScheme → Prop
  | .Standard _ c _ => c = MessageClass.StoreToNv
  | _ => True

instance : ∀ d : DataCodingScheme, Decidable d.classCanonical
  | .Standard _ _ _ => inferInstanceAs (Decidable (_ = _))
  | .Reserved => inferInstanceAs (Decidable True)
  | .MessageWaitingDiscard _ _ => inferInstanceAs (Decidable True)
  | .MessageWaiting _ _ _ => inferInstanceAs (Decidable True)

/-! ## User data headers (`src/gsm_encoding/udh.rs`) -/

/-- `UdhComponent` (udh.rs lines 12-17). -/
structure UdhComponent where
  id : Nat
  data : List Nat
deriving DecidableEq

/-- `UserDataHeader` (udh.rs lines 23-25). -/
structure UserDataHeader where
  components : List UdhComponent
deriving DecidableEq

/-- `UserDataHeader::as_bytes` (udh.rs lines 60-70): id, length and data of
each component, with the total length (as `u8`) prepended. -/
def UserDataHeader.asBytes (u : UserDataHeader) : List Nat :=
  let ret := u.components.foldl
    (fun acc comp => acc ++ comp.id :: (comp.data.length % 256) :: comp.data) []
  (ret.length % 256) :: ret

/-- `ConcatenatedSmsData` (udh.rs lines 28-36). -/
structure ConcatenatedSmsData where
  reference : Nat
  parts : Nat
  sequence : Nat
deriving DecidableEq

/-- `UserDataHeader::get_concatenated_sms_data` (udh.rs lines 39-58). -/
def UserDataHeader.getConcatenatedSmsData (u : UserDataHeader) :
    Option ConcatenatedSmsData :=
  u.components.findSome? (fun comp =>
    if comp.id = 0 ∧ comp.data.length = 3 then
      some { reference := comp.data.getD 0 0
             parts := comp.data.getD 1 0
             sequence := comp.data.getD 2 0 }
    else if comp.id = 8 ∧ comp.data.length = 4 then
      some { reference := ((comp.data.getD 0 0) <<< 8) ||| comp.data.getD 1 0
             parts := comp.data.getD 2 0
             sequence := comp.data.getD 3 0 }
    else none)

/-! ## Concatenated-SMS encoding (`src/gsm_encoding/mod.rs` lines 102-112 and 191-275) -/

/-- `split_buffers` (mod.rs lines 102-112): split into chunks of `max_len`.
The Rust loop does not terminate for `max_len = 0` on a non-empty buffer;
both call sites use 153 or 134, and the model returns the whole buffer in
that unreachable case. -/
def split_buffers_fuel : Nat → List Nat → Nat → List (List Nat)
  | 0, buf, _ => [buf]
  | Nat.succ n, buf, max_len =>
    if 0 < max_len ∧ max_len < buf.length then
      buf.take max_len :: split_buffers_fuel n (buf.drop max_len) max_len
    else
      [buf]

/-- `split_buffers` as called with fuel `buf.length`: every loop iteration of
the source removes at least one element when `0 < max_len`, so the fuel never
runs out on the reachable inputs. -/
def split_buffers (buf : List Nat) (max_len : Nat) : List (List Nat) :=
  split_buffers_fuel buf.length buf max_len

/-- `GsmMessageData` (mod.rs lines 115-120). -/
structure GsmMessageData where
  encoding : MessageEncoding
  udh : Bool
  bytes : List Nat
  user_data_len : Nat
deriving DecidableEq

/-- The concatenated-SMS branch of `GsmMessageData::encode_message`
(mod.rs lines 199-226), taken when the GSM 7-bit septet buffer `buf` of the
message is longer than 160 septets.  The random CSMS reference
`rand::random::<u8>()` is passed in explicitly as `csms_ref`. -/
def encodeMessageGsmLong (buf : List Nat) (csms_ref : Nat) : List GsmMessageData :=
  let bufs := split_buffers buf 153
  let num_parts := bufs.length
  bufs.enum.map (fun ic =>
    let udh : UserDataHeader :=
      { components := [{ id := 0, data := [csms_ref, num_parts % 256, (ic.1 + 1) % 256] }] }
    let ret := udh.asBytes
    let padding := 7 - ((ret.length * 8) % 7)
    let len := ((ret.length * 8) + padding + (ic.2.length * 7)) / 7
    { encoding := MessageEncoding.Gsm7Bit
      bytes := ret ++ encode_sms_7bit ic.2 padding
      udh := true
      user_data_len := len % 256 })

/-! ## AT response types (`src/at.rs`) and the engine partition (`src/future.rs`) -/

/-- `AtValue` (at.rs lines 62-78).  `u32` values are modelled as `Nat`. -/
inductive AtValue
  | String (s : String)
  | Integer (i : Nat)
  | Range (r : Nat × Nat)
  | Unknown (s : String)
  | Empty
  | BracketedArray (vs : List AtValue)
  | Array (vs : List AtValue)

/-- `CmsError` (src/error_codes.rs lines 11-102). -/
inductive CmsErrorCode
  | UnassignedNumber
  | OperatorDeterminedBarring
  | CallBarred
  | TransferRejected
  | DestinationOutOfService
  | UnidentifiedSubscriber
  | FacilityRejected
  | UnknownSubscriber
  | NetworkOutOfOrder
  | TemporaryFailure
  | Congestion
  | ResourcesUnavailable
  | NotSubscribed
  | NotImplemented
  | InvalidReferenceValue
  | InvalidMessage
  | InvalidMandatoryInformation
  | NonexistentMessageType
  | IncompatibleMessage
  | NonexistentInformationElement
  | ProtocolError
  | InternetworkingError
  | MeFailure
  | SmsServiceReserved
  | NotAllowed
  | NotSupported
  | InvalidPduModeParameter
  | InvalidTextModeParameter
  | SimNotInserted
  | SimPinRequired
  | PhSimPinRequired
  | SimFailure
  | SimBusy
  | SimWrong
  | SimPukRequired
  | SimPin2Required
  | SimPuk2Required
  | MemoryFailure
  | InvalidMemoryIndex
  | MemoryFull
  | SmscAddressUnknown
  | NoNetworkService
  | NetworkTimeout
  | NoCnmaAcknowledgementExpected
  | UnknownError
deriving DecidableEq

/-- `AtResultCode` (at.rs lines 7-59). -/
inductive AtResultCode
  | Ok
  | Connect
  | Ring
  | NoCarrier
  | Error
  | CmeError (code : Nat)
  | CmsError (code : CmsErrorCode)
  | CmsErrorString (s : String)
  | CmsErrorUnknown (code : Nat)
  | NoDialtone
  | Busy
  | NoAnswer
  | CommandNotSupported
  | TooManyParameters

/-- `AtResponse` (at.rs lines 160-172). -/
inductive AtResponse
  | InformationResponse (param : String) (response : AtValue)
  | ResultCode (code : AtResultCode)
  | Unknown (text : String)

/-- `AtResponse::is_result_code` (derived by `is_enum_variant`). -/
def AtResponse.is_result_code : AtResponse → Bool
  | .ResultCode _ => true
  | _ => false

/-- `AtResponsePacket` (at.rs lines 175-185). -/
structure AtResponsePacket where
  responses : List AtResponse
  status : AtResultCode

/-- One step of the response partition in `HuaweiModemFuture::poll`
(future.rs lines 79-94): expected information responses are kept, other
information responses are sent to the URC sink (collected in the second
component), a result code becomes the status, anything else is kept. -/
def partitionStep (expected : List String) :
    List AtResponse × List AtResponse × Option AtResultCode → AtResponse →
    List AtResponse × List AtResponse × Option AtResultCode
  | (resps, urcs, status), .InformationResponse param response =>
    if expected.contains param then
      (resps ++ [.InformationResponse param response], urcs, status)
    else
      (resps, urcs ++ [.InformationResponse param response], status)
  | (resps, urcs, _), .ResultCode x => (resps, urcs, some x)
  | (resps, urcs, status), .Unknown t => (resps ++ [.Unknown t], urcs, status)

/-- The full partition loop of `HuaweiModemFuture::poll` (future.rs lines
77-94): starting from empty `resps`, no URC sends and no status. -/
def partitionResponses (expected : List String) (responses : List AtResponse) :
    List AtResponse × List AtResponse × Option AtResultCode :=
  responses.foldl (partitionStep expected) ([], [], none)

/-! ## Properties of `split_buffers` and the concatenation encoder -/

theorem split_buffers_fuel_flatten : ∀ (n : Nat) (buf : List Nat) (m : Nat),
    (split_buffers_fuel n buf m).flatten = buf := by
  intro n
  induction n with
  | zero =>
    intro buf m
    simp [split_buffers_fuel]
  | succ n ih =>
    intro buf m
    unfold split_buffers_fuel
    by_cases hc : 0 < m ∧ m < buf.length
    · rw [if_pos hc]
      rw [List.flatten_cons]
      rw [ih (buf.drop m) m]
      exact List.take_append_drop m buf
    · rw [if_neg hc]
      simp

theorem split_buffers_flatten (buf : List Nat) (m : Nat) :
    (split_buffers buf m).flatten = buf :=
  split_buffers_fuel_flatten buf.length buf m

theorem split_buffers_fuel_length_153 : ∀ (n : Nat) (buf : List Nat),
    buf.length ≤ n → 0 < buf.length →
    (split_buffers_fuel n buf 153).length = (buf.length + 152) / 153 := by
  intro n
  induction n with
  | zero =>
    intro buf h h0
    omega
  | succ n ih =>
    intro buf h h0
    unfold split_buffers_fuel
    by_cases hc : 0 < 153 ∧ 153 < buf.length
    · rw [if_pos hc]
      rw [List.length_cons, ih (buf.drop 153) (by simp; omega) (by simp; omega)]
      simp only [List.length_drop]
      omega
    · rw [if_neg hc]
      simp only [List.length_singleton]
      omega

theorem split_buffers_length_153 (buf : List Nat) (h0 : 0 < buf.length) :
    (split_buffers buf 153).length = (buf.length + 152) / 153 :=
  split_buffers_fuel_length_153 buf.length buf Nat.le.refl h0

theorem split_buffers_fuel_chunks_153 : ∀ (n : Nat) (buf : List Nat),
    buf.length ≤ n → 0 < buf.length →
    ∀ c ∈ split_buffers_fuel n buf 153, c ≠ [] ∧ c.length ≤ 153 := by
  intro n
  induction n with
  | zero =>
    intro buf h h0
    omega
  | succ n ih =>
    intro buf h h0 c hc
    unfold split_buffers_fuel at hc
    by_cases hcond : 0 < 153 ∧ 153 < buf.length
    · rw [if_pos hcond] at hc
      rcases List.mem_cons.mp hc with hh | ht
      · subst hh
        constructor
        · have hlt : (buf.take 153).length = 153 := by
            rw [List.length_take]
            omega
          intro hnil
          rw [hnil] at hlt
          simp at hlt
        · rw [List.length_take]
          omega
      · exact ih (buf.drop 153) (by simp; omega) (by simp; omega) c ht
    · rw [if_neg hcond] at hc
      rcases List.mem_singleton.mp hc with rfl
      constructor
      · intro hnil
        rw [hnil] at h0
        simp at h0
      · omega

theorem split_buffers_chunks_153 (buf : List Nat) (h0 : 0 < buf.length) :
    ∀ c ∈ split_buffers buf 153, c ≠ [] ∧ c.length ≤ 153 :=
  split_buffers_fuel_chunks_153 buf.length buf Nat.le.refl h0

/-- Shape of the concatenated-SMS parts (used for claim C5): each part is
the 6-byte concatenation UDH `[5, 0, 3, ref, n, i+1]` followed by the
septet-packed chunk with one padding bit, the chunks being the 153-septet
split of the message, and the stored `user_data_len` counts the UDH as 7
septet-equivalents plus the chunk septets. -/
theorem encodeMessageGsmLong_spec (buf : List Nat) (R : Nat)
    (hlong : 160 < buf.length) (hbound : buf.length ≤ 39015) :
    ∃ chunks : List (List Nat),
      chunks.flatten = buf
      ∧ chunks.length = (buf.length + 152) / 153
      ∧ (∀ c ∈ chunks, c ≠ [] ∧ c.length ≤ 153)
      ∧ encodeMessageGsmLong buf R = chunks.enum.map (fun ic =>
          { encoding := MessageEncoding.Gsm7Bit
            udh := true
            bytes := [5, 0, 3, R, chunks.length, ic.1 + 1] ++ encode_sms_7bit ic.2 1
            user_data_len := 7 + ic.2.length }) := by
  refine ⟨split_buffers buf 153, ?_, ?_, ?_, ?_⟩
  · exact split_buffers_flatten buf 153
  · exact split_buffers_length_153 buf (by omega)
  · exact split_buffers_chunks_153 buf (by omega)
  · unfold encodeMessageGsmLong
    apply List.map_congr_left
    intro ic hic
    obtain ⟨i, c⟩ := ic
    have hmem := List.mem_enum hic
    have hn : (split_buffers buf 153).length = (buf.length + 152) / 153 :=
      split_buffers_length_153 buf (by omega)
    have hnle : (split_buffers buf 153).length ≤ 255 := by
      rw [hn]
      omega
    have hclen : c.length ≤ 153 := by
      have hcmem : c ∈ split_buffers buf 153 := by
        rcases hmem with ⟨hi, hx⟩
        rw [hx]
        exact List.getElem_mem _
      exact (split_buffers_chunks_153 buf (by omega) c hcmem).2
    have hi : i < (split_buffers buf 153).length := hmem.1
    have hnmod : (split_buffers buf 153).length % 256 = (split_buffers buf 153).length :=
      Nat.mod_eq_of_lt (by omega)
    have himod : (i + 1) % 256 = i + 1 := Nat.mod_eq_of_lt (by omega)
    simp only [UserDataHeader.asBytes, List.foldl_cons, List.foldl_nil, List.nil_append,
      List.length_cons, List.length_nil]
    rw [hnmod, himod]
    congr 1
    rw [show (49 + c.length * 7) / 7 = 7 + c.length from by omega]
    exact Nat.mod_eq_of_lt (by omega)

/-! ## URC isolation in the engine partition -/

theorem partition_mem_aux (expected : List String) (param : String) (v : AtValue) :
    ∀ (rs : List AtResponse) (resps urcs : List AtResponse) (status : Option AtResultCode),
      (AtResponse.InformationResponse param v
          ∈ (rs.foldl (partitionStep expected) (resps, urcs, status)).1
        ↔ (AtResponse.InformationResponse param v ∈ resps
          ∨ (AtResponse.InformationResponse param v ∈ rs ∧ param ∈ expected)))
      ∧ (AtResponse.InformationResponse param v
          ∈ (rs.foldl (partitionStep expected) (resps, urcs, status)).2.1
        ↔ (AtResponse.InformationResponse param v ∈ urcs
          ∨ (AtResponse.InformationResponse param v ∈ rs ∧ param ∉ expected))) := by
  intro rs
  induction rs with
  | nil =>
    intro resps urcs status
    simp
  | cons r rest ih =>
    intro resps urcs status
    rw [List.foldl_cons]
    cases r with
    | InformationResponse p2 v2 =>
      have hxq : AtResponse.InformationResponse param v
          = AtResponse.InformationResponse p2 v2 → param = p2 := by
        intro h
        cases h
        rfl
      by_cases hp : p2 ∈ expected
      · have hc : expected.contains p2 = true := by simpa using hp
        have himp : AtResponse.InformationResponse param v
            = AtResponse.InformationResponse p2 v2 → param ∈ expected := by
          intro h
          rw [hxq h]
          exact hp
        simp only [partitionStep]
        rw [if_pos hc]
        have hih := ih (resps ++ [AtResponse.InformationResponse p2 v2]) urcs status
        rw [hih.1, hih.2]
        simp only [List.mem_append, List.mem_singleton, List.mem_cons]
        constructor
        · tauto
        · tauto
      · have hc : ¬ (expected.contains p2 = true) := by simpa using hp
        have himp : AtResponse.InformationResponse param v
            = AtResponse.InformationResponse p2 v2 → param ∉ expected := by
          intro h
          rw [hxq h]
          exact hp
        simp only [partitionStep]
        rw [if_neg hc]
        have hih := ih resps (urcs ++ [AtResponse.InformationResponse p2 v2]) status
        rw [hih.1, hih.2]
        simp only [List.mem_append, List.mem_singleton, List.mem_cons]
        constructor
        · tauto
        · tauto
    | ResultCode code =>
      simp only [partitionStep]
      have hih := ih resps urcs (some code)
      rw [hih.1, hih.2]
      simp
    | Unknown t =>
      simp only [partitionStep]
      have hih := ih (resps ++ [AtResponse.Unknown t]) urcs status
      rw [hih.1, hih.2]
      simp

/-! ## Claim theorems -/

/-- Claim C1: for every well-formed SMS-SUBMIT value `P`, parsing the byte
vector `P.as_bytes().0` via `Pdu`'s `TryFrom<&[u8]>` yields a `Pdu` equal to
`P`.  Well-formedness (`Pdu.wf`) asks for non-empty decimal-digit addresses,
in-range `u8` fields, a first octet with `rd` clear and VPF `Invalid` or
`Relative`, a zero validity period when the VPF is `Invalid`, and a
canonical DCS. -/
theorem C1_theorem (p : Pdu) (h : p.wf) :
    Pdu.tryFrom (Pdu.asBytes p).1 = PResult.ok p :=
  pdu_roundtrip p h

theorem C1_witness :
    Pdu.wf
      { sca := none
        first_octet :=
          { mti := .SmsSubmit, rd := false, vpf := .Invalid
            srr := false, udhi := false, rp := false }
        message_id := 0
        destination :=
          { type_addr := { type_of_number := .International
                           numbering_plan_identification := .IsdnTelephone }
            number := { digits := [4, 4, 7] } }
        dcs := .Standard false .StoreToNv .Gsm7Bit
        validity_period := 0
        user_data := [1, 2]
        user_data_len := 2 }
    ∧ Pdu.tryFrom (Pdu.asBytes
      { sca := none
        first_octet :=
          { mti := .SmsSubmit, rd := false, vpf := .Invalid
            srr := false, udhi := false, rp := false }
        message_id := 0
        destination :=
          { type_addr := { type_of_number := .International
                           numbering_plan_identification := .IsdnTelephone }
            number := { digits := [4, 4, 7] } }
        dcs := .Standard false .StoreToNv .Gsm7Bit
        validity_period := 0
        user_data := [1, 2]
        user_data_len := 2 }).1 = PResult.ok
      { sca := none
        first_octet :=
          { mti := .SmsSubmit, rd := false, vpf := .Invalid
            srr := false, udhi := false, rp := false }
        message_id := 0
        destination :=
          { type_addr := { type_of_number := .International
                           numbering_plan_identification := .IsdnTelephone }
            number := { digits := [4, 4, 7] } }
        dcs := .Standard false .StoreToNv .Gsm7Bit
        validity_period := 0
        user_data := [1, 2]
        user_data_len := 2 } :=
  ⟨by decide, C1_theorem _ (by decide)⟩

/-- Claim C2, counterexample: for the septet sequence `[1, 2]` with padding
2, `decode_sms_7bit(encode_sms_7bit(S, 2), 2, 2)` returns `[1]`, not `S` —
the final septet lands entirely in the `next` bits of the last octet and the
`ret.len() < len` gate refuses to push it. -/
theorem C2_counterexample :
    decode_sms_7bit (encode_sms_7bit [1, 2] 2) 2 2 ≠ [1, 2]
    ∧ decode_sms_7bit (encode_sms_7bit [1, 2] 2) 2 2 = [1] := by
  decide

/-- Claim C2, amended: for every sequence `S` of `N` septets (each < 128)
and padding `p ∈ {0..6}`, `decode_sms_7bit(encode_sms_7bit(S, p), p, N) = S`
holds provided `N ≥ 1` and either `p = 0` or `p + 7·N` is not a multiple of
8 (when `p > 0` and `p + 7·N ≡ 0 (mod 8)` the decoder drops the final
septet, and for `N = 0`, `p = 0` it returns `[0]`). -/
theorem C2_theorem (S : List Nat) (p : Nat)
    (hS : ∀ x ∈ S, x < 128) (hp : p ≤ 6) (hne : S ≠ [])
    (hali : p = 0 ∨ (p + 7 * S.length) % 8 ≠ 0) :
    decode_sms_7bit (encode_sms_7bit S p) p S.length = S :=
  decode_encode_sms_7bit S p hS hp hne hali

theorem C2_witness :
    ((∀ x ∈ [1, 2, 3], x < 128) ∧ 2 ≤ 6 ∧ ([1, 2, 3] : List Nat) ≠ []
      ∧ (2 + 7 * ([1, 2, 3] : List Nat).length) % 8 ≠ 0)
    ∧ decode_sms_7bit (encode_sms_7bit [1, 2, 3] 2) 2 ([1, 2, 3] : List Nat).length
      = [1, 2, 3] :=
  ⟨by decide, C2_theorem [1, 2, 3] 2 (by decide) (by decide) (by decide)
    (Or.inr (by decide))⟩

/-- Claim C3: the claim is right and the code is wrong.  Both
`Pdu::try_from` and `DeliverPdu::try_from` read `b[0]` without a bounds
check, so on the empty byte sequence they panic instead of returning a
structured `InvalidPdu` error; every other read is gated by `check_offset!`,
so no non-empty input can panic. -/
theorem C3_theorem :
    Pdu.tryFrom [] = PResult.panicked
    ∧ DeliverPdu.tryFrom [] = PResult.panicked
    ∧ (∀ b : List Nat, b ≠ [] →
        Pdu.tryFrom b ≠ PResult.panicked ∧ DeliverPdu.tryFrom b ≠ PResult.panicked) :=
  ⟨rfl, rfl, fun b h => ⟨pduTryFrom_ne_panicked b h, deliverPduTryFrom_ne_panicked b h⟩⟩

theorem C3_witness :
    (([0] : List Nat) ≠ [])
    ∧ (Pdu.tryFrom [0] ≠ PResult.panicked ∧ DeliverPdu.tryFrom [0] ≠ PResult.panicked) :=
  ⟨by decide, C3_theorem.2.2 [0] (by decide)⟩

/-- Claim C4, counterexample: decoding octet `0x00` yields
`Standard { compressed: false, class: Silent, encoding: Gsm7Bit }`, which
re-encodes to `0x10`; `0x10` decodes with `class = StoreToNv` (the encoder
always sets bit 4, which the decoder treats as "class defaulted"), so the
decoded value does not survive the round trip. -/
theorem C4_counterexample :
    DataCodingScheme.fromU8 (DataCodingScheme.toU8 (DataCodingScheme.fromU8 0))
      ≠ DataCodingScheme.fromU8 0 := by
  decide

/-- Claim C4, amended: a decoded `DataCodingScheme` re-encodes to an octet
that decodes to the same variant with the same fields, provided that when
the variant is `Standard` its class field is `StoreToNv`.  (A decoded
`Standard` value with any other class re-decodes with class `StoreToNv`,
all other fields preserved.) -/
theorem C4_theorem : ∀ b < 256, (DataCodingScheme.fromU8 b).classCanonical →
    DataCodingScheme.fromU8 (DataCodingScheme.toU8 (DataCodingScheme.fromU8 b))
      = DataCodingScheme.fromU8 b := by
  decide

theorem C4_witness :
    ((0x11 : Nat) < 256 ∧ (DataCodingScheme.fromU8 0x11).classCanonical)
    ∧ DataCodingScheme.fromU8 (DataCodingScheme.toU8 (DataCodingScheme.fromU8 0x11))
      = DataCodingScheme.fromU8 0x11 :=
  ⟨by decide, C4_theorem 0x11 (by decide) (by decide)⟩

/-- Claim C5, counterexample: for 161 septets of value 1, unpacking each
part's payload (the bytes after the 6-byte UDH, with padding 1) does not
reconstruct the original septet stream, neither when the expected-length
argument is the part's own septet count (the 153-septet part ends exactly on
an octet boundary, so its last septet is dropped) nor when it is the stored
`user_data_len` (the final part then gains a spurious zero septet). -/
theorem C5_counterexample :
    ((encodeMessageGsmLong (List.replicate 161 1) 0).map
      (fun g => decode_sms_7bit (g.bytes.drop 6) 1 (g.user_data_len - 7))).flatten
      ≠ List.replicate 161 1
    ∧ ((encodeMessageGsmLong (List.replicate 161 1) 0).map
      (fun g => decode_sms_7bit (g.bytes.drop 6) 1 g.user_data_len)).flatten
      ≠ List.replicate 161 1 := by
  decide

/-- Claim C5, amended: for every GSM-encodable septet stream longer than 160
septets (and short enough that the `u8` part counters do not wrap), the
concatenated-SMS encoder produces `⌈N/153⌉` parts; part `i` (0-based) is the
UDH `[5, 0, 3, R, n, i+1]` — a single component with id 0 and data
`[R, n, i+1]`, so parts and sequence numbers are contiguous from 1 to `n` —
followed by the septet-packed chunk `i` with one padding bit, where the
chunks are non-empty, at most 153 septets each, and concatenate to the
original stream; the stored `user_data_len` is `7 + |chunk|`. -/
theorem C5_theorem (buf : List Nat) (R : Nat)
    (hlong : 160 < buf.length) (hbound : buf.length ≤ 39015) :
    ∃ chunks : List (List Nat),
      chunks.flatten = buf
      ∧ chunks.length = (buf.length + 152) / 153
      ∧ (∀ c ∈ chunks, c ≠ [] ∧ c.length ≤ 153)
      ∧ encodeMessageGsmLong buf R = chunks.enum.map (fun ic =>
          { encoding := MessageEncoding.Gsm7Bit
            udh := true
            bytes := [5, 0, 3, R, chunks.length, ic.1 + 1] ++ encode_sms_7bit ic.2 1
            user_data_len := 7 + ic.2.length }) :=
  encodeMessageGsmLong_spec buf R hlong hbound

theorem C5_witness :
    (160 < (List.replicate 200 97 : List Nat).length
      ∧ (List.replicate 200 97 : List Nat).length ≤ 39015)
    ∧ (∃ chunks : List (List Nat),
      chunks.flatten = List.replicate 200 97
      ∧ chunks.length = ((List.replicate 200 97 : List Nat).length + 152) / 153
      ∧ (∀ c ∈ chunks, c ≠ [] ∧ c.length ≤ 153)
      ∧ encodeMessageGsmLong (List.replicate 200 97) 42 = chunks.enum.map (fun ic =>
          { encoding := MessageEncoding.Gsm7Bit
            udh := true
            bytes := [5, 0, 3, 42, chunks.length, ic.1 + 1] ++ encode_sms_7bit ic.2 1
            user_data_len := 7 + ic.2.length })) :=
  ⟨by decide, C5_theorem (List.replicate 200 97) 42 (by decide) (by decide)⟩

/-- Claim C6, counterexample: the address `+447700900123` (12 decimal
digits) serialised as a destination address does not produce the digit bytes
`44 77 00 09 00 21 F3` claimed by the spec — those octets decode to the
13-digit number 4477009000123 and end with an `F` pad that an even digit
count never gets. -/
theorem C6_counterexample :
    (PduAddress.ofStr ("+447700900123".data)).asBytes true
      ≠ [0x0C, 0x91, 0x44, 0x77, 0x00, 0x09, 0x00, 0x21, 0xF3] := by
  decide

/-- Claim C6, amended: the `PduAddress` for `+447700900123` (TypeOfNumber
`International`, NPI `IsdnTelephone`) serialised as a destination address
(nybble-length convention) produces length byte `0x0C` (= 12), type byte
`0x91`, and digit bytes `44 77 00 09 10 32`. -/
theorem C6_theorem :
    (PduAddress.ofStr ("+447700900123".data)).asBytes true
      = [0x0C, 0x91, 0x44, 0x77, 0x00, 0x09, 0x10, 0x32]
    ∧ (PduAddress.ofStr ("+447700900123".data)).type_addr.type_of_number
      = TypeOfNumber.International := by
  decide

/-- Claim C7: in the response-partition step of `HuaweiModemFuture::poll`,
for an active request with expected set `E` and an accumulated response list
ending in a result code, an information response is kept in the delivered
packet exactly when its `param` is in `E`, and goes to the URC sink exactly
when its `param` is not in `E` — non-expected information responses are
delivered exclusively via the URC sink. -/
theorem C7_theorem (expected : List String) (responses : List AtResponse)
    (param : String) (v : AtValue)
    (_hterm : ∃ r ∈ responses, r.is_result_code = true) :
    (AtResponse.InformationResponse param v ∈ (partitionResponses expected responses).1
      ↔ (AtResponse.InformationResponse param v ∈ responses ∧ param ∈ expected))
    ∧ (AtResponse.InformationResponse param v ∈ (partitionResponses expected responses).2.1
      ↔ (AtResponse.InformationResponse param v ∈ responses ∧ param ∉ expected)) := by
  have h := partition_mem_aux expected param v responses [] [] none
  unfold partitionResponses
  constructor
  · rw [h.1]
    simp
  · rw [h.2]
    simp

theorem C7_witness :
    (∃ r ∈ [AtResponse.InformationResponse "+CMTI" AtValue.Empty,
            AtResponse.InformationResponse "+CREG" AtValue.Empty,
            AtResponse.ResultCode AtResultCode.Ok], r.is_result_code = true)
    ∧ ((AtResponse.InformationResponse "+CMTI" AtValue.Empty
        ∈ (partitionResponses ["+CREG"]
          [AtResponse.InformationResponse "+CMTI" AtValue.Empty,
           AtResponse.InformationResponse "+CREG" AtValue.Empty,
           AtResponse.ResultCode AtResultCode.Ok]).1
      ↔ (AtResponse.InformationResponse "+CMTI" AtValue.Empty
        ∈ [AtResponse.InformationResponse "+CMTI" AtValue.Empty,
           AtResponse.InformationResponse "+CREG" AtValue.Empty,
           AtResponse.ResultCode AtResultCode.Ok] ∧ "+CMTI" ∈ ["+CREG"]))
    ∧ (AtResponse.InformationResponse "+CMTI" AtValue.Empty
        ∈ (partitionResponses ["+CREG"]
          [AtResponse.InformationResponse "+CMTI" AtValue.Empty,
           AtResponse.InformationResponse "+CREG" AtValue.Empty,
           AtResponse.ResultCode AtResultCode.Ok]).2.1
      ↔ (AtResponse.InformationResponse "+CMTI" AtValue.Empty
        ∈ [AtResponse.InformationResponse "+CMTI" AtValue.Empty,
           AtResponse.InformationResponse "+CREG" AtValue.Empty,
           AtResponse.ResultCode AtResultCode.Ok] ∧ "+CMTI" ∉ ["+CREG"]))) :=
  ⟨by decide, C7_theorem ["+CREG"] _ "+CMTI" AtValue.Empty (by decide)⟩

/-- Claim C8: for every sequence `D` of 4-bit digits none of which is `0xF`,
decoding the packed bytes of `PhoneNumber(D)` yields a `PhoneNumber` whose
digit sequence equals `D`. -/
theorem C8_theorem (D : List Nat) (h : ∀ d ∈ D, d < 16 ∧ d ≠ 15) :
    PhoneNumber.ofBytes (PhoneNumber.asBytes { digits := D }) = { digits := D } := by
  simp only [PhoneNumber.ofBytes, PhoneNumber.asBytes]
  rw [phone_roundtrip D h]

theorem C8_witness :
    (∀ d ∈ [4, 4, 7, 0, 9], d < 16 ∧ d ≠ 15)
    ∧ PhoneNumber.ofBytes (PhoneNumber.asBytes { digits := [4, 4, 7, 0, 9] })
      = { digits := [4, 4, 7, 0, 9] } :=
  ⟨by decide, C8_theorem [4, 4, 7, 0, 9] (by decide)⟩

/-- Claim C9, counterexample: for the empty septet sequence with padding 1
the encoder returns no octets at all, while `⌈(1 + 7·0) / 8⌉ = 1`. -/
theorem C9_counterexample :
    (encode_sms_7bit [] 1).length ≠ (1 + 7 * ([] : List Nat).length + 7) / 8 := by
  decide

/-- Claim C9, amended: for every septet sequence of length `N` and padding
`p ∈ {0..6}`, the packed octet stream has length `⌈(p + 7·N) / 8⌉` provided
the sequence is non-empty or `p = 0` (for the empty sequence with positive
padding the encoder emits nothing). -/
theorem C9_theorem (S : List Nat) (p : Nat) (hp : p ≤ 6) (h : S ≠ [] ∨ p = 0) :
    (encode_sms_7bit S p).length = (p + 7 * S.length + 7) / 8 :=
  encode_sms_7bit_length S p hp h

theorem C9_witness :
    ((3 : Nat) ≤ 6 ∧ ([5] : List Nat) ≠ [])
    ∧ (encode_sms_7bit [5] 3).length = (3 + 7 * ([5] : List Nat).length + 7) / 8 :=
  ⟨by decide, C9_theorem [5] 3 (by decide) (Or.inl (by decide))⟩

/-- Claim C10: for every octet `b`, the decoded SMS-DELIVER first octet has
`udhi = rp` (both are computed from bit 6, mask `0b0100_0000`), and bit 7 of
`b` has no effect on the decoded value — the RP flag is never taken from
bit 7. -/
theorem C10_theorem : ∀ b < 256,
    ((DeliverPduFirstOctet.fromU8 b).udhi = (DeliverPduFirstOctet.fromU8 b).rp)
    ∧ DeliverPduFirstOctet.fromU8 b = DeliverPduFirstOctet.fromU8 (b % 128) := by
  decide

theorem C10_witness :
    ((0xFF : Nat) < 256)
    ∧ (((DeliverPduFirstOctet.fromU8 0xFF).udhi = (DeliverPduFirstOctet.fromU8 0xFF).rp)
      ∧ DeliverPduFirstOctet.fromU8 0xFF = DeliverPduFirstOctet.fromU8 (0xFF % 128)) :=
  ⟨by decide, C10_theorem 0xFF (by decide)⟩

end HuaweiModem
